import Mathlib

/-!
Verification of the model-selection engine of the `asid.automl_imbalanced`
package (`ilc.py` and `tools_ilc.py`).

The Python code is shallowly embedded: numeric values are modelled by `ℚ`
(the code performs exact-looking arithmetic on counts and ratios; floating
point rounding is abstracted away), Python exceptions are modelled by
`Except String`, and the external collaborators (scikit-learn splitters,
the resampler/classifier pipelines, numpy percentile, scipy rankdata,
hyperopt search) are modelled as opaque oracles collected in an
environment structure `CVEnv`, exactly at the boundaries where the source
calls into those libraries.
-/

deriving instance DecidableEq for Except

/-- Python `round(x, 0)` / numpy rounding: round half to even (banker's
rounding), as performed by `int(round(v, 0))` in
`get_sampl_strat_for_case`. -/
def pyRound (q : ℚ) : ℤ :=
  let f := ⌊q⌋
  let r := q - f
  if r < 1/2 then f
  else if 1/2 < r then f + 1
  else if f % 2 = 0 then f else f + 1

/-- Python `int(x)` on a float: truncation toward zero (used for the
`k_neighbors` / `n_neighbors` coercions). -/
def pyTrunc (q : ℚ) : ℤ :=
  if 0 ≤ q then ⌊q⌋ else -⌊-q⌋

/-- Helper for `argminL`: `np.argmin` scan keeping the first index of the
least value. `i` is the index of the next element, `bi`/`bv` the best
index and value so far. -/
def argminAux : List ℕ → ℕ → ℕ → ℕ → ℕ
  | [], _, bi, _ => bi
  | x :: xs, i, bi, bv =>
      if x < bv then argminAux xs (i + 1) i x else argminAux xs (i + 1) bi bv

/-- `np.argmin` on a 1-d integer array: index of the first occurrence of
the minimum (0 on the empty list, which never occurs for `np.unique`
counts of a nonempty label vector). -/
def argminL : List ℕ → ℕ
  | [] => 0
  | x :: xs => argminAux xs 1 0 x

/-- Helper for `argmaxL`, mirroring `argminAux`. -/
def argmaxAux : List ℕ → ℕ → ℕ → ℕ → ℕ
  | [], _, bi, _ => bi
  | x :: xs, i, bi, bv =>
      if bv < x then argmaxAux xs (i + 1) i x else argmaxAux xs (i + 1) bi bv

/-- `np.argmax` on a 1-d integer array: index of the first occurrence of
the maximum. -/
def argmaxL : List ℕ → ℕ
  | [] => 0
  | x :: xs => argmaxAux xs 1 0 x

/-- The value of `balancing__sampling_strategy`: either a scalar ratio
(a Python float, the raw hyperopt draw or the binary-case correction) or
a per-class target-count dictionary (the multiclass correction). -/
inductive SS where
  | ratio (q : ℚ)
  | perClass (m : List (ℤ × ℤ))
deriving DecidableEq, Repr, Inhabited

/-- A class-count summary: the result of `np.unique(y, return_counts=True)`:
sorted unique label values paired with their positive occurrence counts
(parallel lists of equal length). -/
abbrev ClassCounts := List ℤ × List ℕ

/-- Embedding of `get_sampl_strat_for_case(ss, count_class, balance_method)`
(`tools_ilc.py` lines 83-123).  With more than 2 classes it builds the
per-class dictionary (undersampling direction for `"RandomUnderSampler"`,
oversampling direction otherwise); with at most 2 classes it returns
`max(min_count / max_count, ss)`.  In the undersampling branch with
`ss = 0`, Python computes `count / 0.0 = inf` and `int(inf)` raises
`OverflowError`; this is modelled by `Except.error`. -/
def get_sampl_strat_for_case (ss : ℚ) (count_class : ClassCounts)
    (balance_method : String) : Except String SS :=
  let vals := count_class.1
  let counts := count_class.2
  let min_cl_arg := argminL counts
  let max_cl_arg := argmaxL counts
  if 2 < vals.length then
    if balance_method = "RandomUnderSampler" then
      if ss = 0 then
        Except.error "OverflowError: cannot convert float infinity to integer"
      else
        Except.ok (SS.perClass (vals.enum.map (fun p =>
          (p.2, if p.1 = min_cl_arg then ((counts.getD p.1 0 : ℤ))
                else min (pyRound ((counts.getD min_cl_arg 0 : ℚ) / ss))
                         ((counts.getD p.1 0 : ℤ))))))
    else
      Except.ok (SS.perClass (vals.enum.map (fun p =>
        (p.2, if p.1 = max_cl_arg then ((counts.getD p.1 0 : ℤ))
              else max (pyRound ((counts.getD max_cl_arg 0 : ℚ) * ss))
                       ((counts.getD p.1 0 : ℤ))))))
  else
    Except.ok (SS.ratio
      (max ((counts.getD min_cl_arg 0 : ℚ) / (counts.getD max_cl_arg 0 : ℚ)) ss))

/-- The first-minimum scan stays below the bound `i + length`. -/
theorem argminAux_lt (l : List ℕ) : ∀ i bi bv, bi < i → argminAux l i bi bv < i + l.length := by
  induction l with
  | nil => intro i bi bv h; simpa [argminAux] using lt_of_lt_of_le h (by omega)
  | cons x xs ih =>
      intro i bi bv h
      simp only [argminAux, List.length_cons]
      split
      · have := ih (i + 1) i x (by omega); omega
      · have := ih (i + 1) bi bv (by omega); omega

/-- `np.argmin` returns a valid index on a nonempty list. -/
theorem argminL_lt (l : List ℕ) (h : l ≠ []) : argminL l < l.length := by
  match l, h with
  | x :: xs, _ =>
      have := argminAux_lt xs 1 0 x (by omega)
      simp only [argminL, List.length_cons]
      omega

/-- The first-maximum scan stays below the bound `i + length`. -/
theorem argmaxAux_lt (l : List ℕ) : ∀ i bi bv, bi < i → argmaxAux l i bi bv < i + l.length := by
  induction l with
  | nil => intro i bi bv h; simpa [argmaxAux] using lt_of_lt_of_le h (by omega)
  | cons x xs ih =>
      intro i bi bv h
      simp only [argmaxAux, List.length_cons]
      split
      · have := ih (i + 1) i x (by omega); omega
      · have := ih (i + 1) bi bv (by omega); omega

/-- `np.argmax` returns a valid index on a nonempty list. -/
theorem argmaxL_lt (l : List ℕ) (h : l ≠ []) : argmaxL l < l.length := by
  match l, h with
  | x :: xs, _ =>
      have := argmaxAux_lt xs 1 0 x (by omega)
      simp only [argmaxL, List.length_cons]
      omega

/-- On a two-element list, `np.argmin` picks the smaller element (first on
ties). -/
theorem argminL_pair (a b : ℕ) : argminL [a, b] = if b < a then 1 else 0 := by
  simp [argminL, argminAux]

/-- On a two-element list, `np.argmax` picks the larger element (first on
ties). -/
theorem argmaxL_pair (a b : ℕ) : argmaxL [a, b] = if a < b then 1 else 0 := by
  simp [argmaxL, argmaxAux]

/-- Indexing the minimum of a two-element list. -/
theorem getD_argminL_pair (a b : ℕ) : ([a, b] : List ℕ).getD (argminL [a, b]) 0 = min a b := by
  rw [argminL_pair]
  rcases le_or_lt a b with h | h
  · rw [if_neg (not_lt.mpr h)]; simp [min_eq_left h]
  · rw [if_pos h]; simp [min_eq_right h.le]

/-- Indexing the maximum of a two-element list. -/
theorem getD_argmaxL_pair (a b : ℕ) : ([a, b] : List ℕ).getD (argmaxL [a, b]) 0 = max a b := by
  rw [argmaxL_pair]
  rcases le_or_lt b a with h | h
  · rw [if_neg (not_lt.mpr h)]; simp [max_eq_left h]
  · rw [if_pos h]; simp [max_eq_right h.le]

/-- C3: for every class-count summary with exactly 2 distinct classes and
every raw ratio `ss` in `[0,1]`, `get_sampl_strat_for_case` returns
`max(minority_count / majority_count, ss)`; the result is at least the
natural minority/majority ratio and at most 1 (for every resampler
label `bm`). -/
theorem binary_sampling_strategy_correction (ss : ℚ) (v1 v2 : ℤ) (a b : ℕ) (bm : String)
    (ha : 0 < a) (hb : 0 < b) (h0 : 0 ≤ ss) (h1 : ss ≤ 1) :
    get_sampl_strat_for_case ss ([v1, v2], [a, b]) bm
      = Except.ok (SS.ratio (max (((min a b : ℕ) : ℚ) / ((max a b : ℕ) : ℚ)) ss))
    ∧ ((min a b : ℕ) : ℚ) / ((max a b : ℕ) : ℚ)
        ≤ max (((min a b : ℕ) : ℚ) / ((max a b : ℕ) : ℚ)) ss
    ∧ max (((min a b : ℕ) : ℚ) / ((max a b : ℕ) : ℚ)) ss ≤ 1 := by
  have hmaxpos : (0 : ℚ) < ((max a b : ℕ) : ℚ) := by
    have : 0 < max a b := lt_of_lt_of_le ha (le_max_left a b)
    exact_mod_cast this
  have hdiv1 : ((min a b : ℕ) : ℚ) / ((max a b : ℕ) : ℚ) ≤ 1 := by
    rw [div_le_one hmaxpos]
    exact_mod_cast min_le_max
  refine ⟨?_, le_max_left _ _, max_le hdiv1 h1⟩
  unfold get_sampl_strat_for_case
  rw [if_neg (by norm_num)]
  have h2 := getD_argminL_pair a b
  have h3 := getD_argmaxL_pair a b
  simp only []
  rw [h2, h3]

/-- C3 witness: a concrete binary instance of the correction theorem. -/
theorem binary_sampling_strategy_correction_witness :
    get_sampl_strat_for_case (1/2) ([0, 1], [1, 4]) "SMOTE"
      = Except.ok (SS.ratio (max (((min 1 4 : ℕ) : ℚ) / ((max 1 4 : ℕ) : ℚ)) (1/2)))
    ∧ ((min 1 4 : ℕ) : ℚ) / ((max 1 4 : ℕ) : ℚ)
        ≤ max (((min 1 4 : ℕ) : ℚ) / ((max 1 4 : ℕ) : ℚ)) (1/2)
    ∧ max (((min 1 4 : ℕ) : ℚ) / ((max 1 4 : ℕ) : ℚ)) (1/2) ≤ 1 :=
  binary_sampling_strategy_correction (1/2) 0 1 1 4 "SMOTE"
    (by norm_num) (by norm_num) (by norm_num) (by norm_num)

/-- C9: with exactly 2 distinct classes the balancing-method argument has
no influence on the result of `get_sampl_strat_for_case` (the binary
branch never reads it). -/
theorem binary_branch_ignores_balance_method (ss : ℚ) (cc : ClassCounts) (bm1 bm2 : String)
    (h2 : cc.1.length = 2) :
    get_sampl_strat_for_case ss cc bm1 = get_sampl_strat_for_case ss cc bm2 := by
  unfold get_sampl_strat_for_case
  simp only [h2]
  norm_num

/-- C9 witness: a concrete binary instance comparing two resampler labels. -/
theorem binary_branch_ignores_balance_method_witness :
    get_sampl_strat_for_case (1/3) ([0, 1], [2, 3]) "SMOTE"
      = get_sampl_strat_for_case (1/3) ([0, 1], [2, 3]) "RandomUnderSampler" :=
  binary_branch_ignores_balance_method (1/3) ([0, 1], [2, 3]) "SMOTE" "RandomUnderSampler" rfl

/-- C4 counterexample: at `ss = 0` (which the claim admits, since it
quantifies over `ss ∈ [0,1]`) the multiclass undersampling branch does not
return a per-class mapping: Python evaluates `int(round(min_count / 0.0))`
= `int(inf)`, which raises `OverflowError`. -/
theorem undersampler_ss_zero_raises_cx :
    get_sampl_strat_for_case 0 ([0, 1, 2], [4, 2, 8]) "RandomUnderSampler"
      = Except.error "OverflowError: cannot convert float infinity to integer" := by
  norm_num [get_sampl_strat_for_case]

/-- Pointwise description of the mapped enumeration used by the multiclass
branches of `get_sampl_strat_for_case`. -/
theorem enum_map_getElem? {α : Type} (f : ℕ × ℤ → α) (l : List ℤ) (i : ℕ) :
    (l.enum.map f)[i]? = (l[i]?).map (fun v => f (i, v)) := by
  simp only [List.getElem?_map, List.getElem?_enum, Option.map_map]
  rfl

/-- C4 (amended): for more than 2 distinct classes, an oversampling-kind
resampler (any label other than `"RandomUnderSampler"`) and `ss ∈ [0,1]`
gives the mapping in which the majority class keeps its count and every
other class receives `max(round(majority_count * ss), own count)`, so no
class shrinks; the undersampling resampler `"RandomUnderSampler"` and
`ss ∈ (0,1]` (the claim's `ss = 0` raises instead, see the counterexample)
gives the mapping in which the minority class keeps its count and every
other class receives `min(round(minority_count / ss), own count)`, so no
class grows. -/
theorem multiclass_sampling_strategy_correction (ss : ℚ) (vals : List ℤ) (counts : List ℕ)
    (bm : String) (hlen : 2 < vals.length) (hpar : counts.length = vals.length) :
    (bm ≠ "RandomUnderSampler" → 0 ≤ ss → ss ≤ 1 →
      ∃ m, get_sampl_strat_for_case ss (vals, counts) bm = Except.ok (SS.perClass m)
        ∧ m.length = vals.length
        ∧ (∀ i, i < vals.length →
            m[i]? = (vals[i]?).map (fun v =>
              (v, if i = argmaxL counts then ((counts.getD i 0 : ℤ))
                  else max (pyRound ((counts.getD (argmaxL counts) 0 : ℚ) * ss))
                           ((counts.getD i 0 : ℤ))))
            ∧ (∀ p, m[i]? = some p → ((counts.getD i 0 : ℤ)) ≤ p.2))
        ∧ (∀ p, m[argmaxL counts]? = some p → p.2 = ((counts.getD (argmaxL counts) 0 : ℤ))))
    ∧ (bm = "RandomUnderSampler" → 0 < ss → ss ≤ 1 →
      ∃ m, get_sampl_strat_for_case ss (vals, counts) bm = Except.ok (SS.perClass m)
        ∧ m.length = vals.length
        ∧ (∀ i, i < vals.length →
            m[i]? = (vals[i]?).map (fun v =>
              (v, if i = argminL counts then ((counts.getD i 0 : ℤ))
                  else min (pyRound ((counts.getD (argminL counts) 0 : ℚ) / ss))
                           ((counts.getD i 0 : ℤ))))
            ∧ (∀ p, m[i]? = some p → p.2 ≤ ((counts.getD i 0 : ℤ))))
        ∧ (∀ p, m[argminL counts]? = some p → p.2 = ((counts.getD (argminL counts) 0 : ℤ)))) := by
  constructor
  · intro hbm hss0 hss1
    refine ⟨vals.enum.map (fun p =>
      (p.2, if p.1 = argmaxL counts then ((counts.getD p.1 0 : ℤ))
            else max (pyRound ((counts.getD (argmaxL counts) 0 : ℚ) * ss))
                     ((counts.getD p.1 0 : ℤ)))), ?_, ?_, ?_, ?_⟩
    · unfold get_sampl_strat_for_case
      rw [if_pos hlen, if_neg hbm]
    · simp
    · intro i hi
      rw [enum_map_getElem? _ vals i]
      refine ⟨rfl, ?_⟩
      intro p hp
      rcases hv : vals[i]? with _ | v
      · rw [hv] at hp; exact absurd hp (by simp)
      · rw [hv] at hp
        simp only [Option.map_some'] at hp
        cases hp
        by_cases hca : i = argmaxL counts
        · simp [hca]
        · simp [hca]
    · intro p hp
      rw [enum_map_getElem? _ vals (argmaxL counts)] at hp
      rcases hv : vals[argmaxL counts]? with _ | v
      · rw [hv] at hp; exact absurd hp (by simp)
      · rw [hv] at hp
        simp only [Option.map_some'] at hp
        cases hp
        simp
  · intro hbm hss0 hss1
    refine ⟨vals.enum.map (fun p =>
      (p.2, if p.1 = argminL counts then ((counts.getD p.1 0 : ℤ))
            else min (pyRound ((counts.getD (argminL counts) 0 : ℚ) / ss))
                     ((counts.getD p.1 0 : ℤ)))), ?_, ?_, ?_, ?_⟩
    · unfold get_sampl_strat_for_case
      rw [if_pos hlen, if_pos hbm, if_neg (by exact ne_of_gt hss0)]
    · simp
    · intro i hi
      rw [enum_map_getElem? _ vals i]
      refine ⟨rfl, ?_⟩
      intro p hp
      rcases hv : vals[i]? with _ | v
      · rw [hv] at hp; exact absurd hp (by simp)
      · rw [hv] at hp
        simp only [Option.map_some'] at hp
        cases hp
        by_cases hca : i = argminL counts
        · simp [hca]
        · simp [hca]
    · intro p hp
      rw [enum_map_getElem? _ vals (argminL counts)] at hp
      rcases hv : vals[argminL counts]? with _ | v
      · rw [hv] at hp; exact absurd hp (by simp)
      · rw [hv] at hp
        simp only [Option.map_some'] at hp
        cases hp
        simp

/-- C4 witness: both multiclass branches instantiated at a concrete
three-class summary with `ss = 1/2`. -/
theorem multiclass_sampling_strategy_correction_witness :
    (∃ m, get_sampl_strat_for_case (1/2) ([0, 1, 2], [4, 2, 8]) "SMOTE"
        = Except.ok (SS.perClass m)
      ∧ m.length = ([0, 1, 2] : List ℤ).length
      ∧ (∀ i, i < ([0, 1, 2] : List ℤ).length →
          m[i]? = (([0, 1, 2] : List ℤ)[i]?).map (fun v =>
            (v, if i = argmaxL [4, 2, 8] then ((([4, 2, 8] : List ℕ).getD i 0 : ℤ))
                else max (pyRound ((([4, 2, 8] : List ℕ).getD (argmaxL [4, 2, 8]) 0 : ℚ) * (1/2)))
                         ((([4, 2, 8] : List ℕ).getD i 0 : ℤ))))
          ∧ (∀ p, m[i]? = some p → ((([4, 2, 8] : List ℕ).getD i 0 : ℤ)) ≤ p.2))
      ∧ (∀ p, m[argmaxL [4, 2, 8]]? = some p
          → p.2 = ((([4, 2, 8] : List ℕ).getD (argmaxL [4, 2, 8]) 0 : ℤ))))
    ∧ (∃ m, get_sampl_strat_for_case (1/2) ([0, 1, 2], [4, 2, 8]) "RandomUnderSampler"
        = Except.ok (SS.perClass m)
      ∧ m.length = ([0, 1, 2] : List ℤ).length
      ∧ (∀ i, i < ([0, 1, 2] : List ℤ).length →
          m[i]? = (([0, 1, 2] : List ℤ)[i]?).map (fun v =>
            (v, if i = argminL [4, 2, 8] then ((([4, 2, 8] : List ℕ).getD i 0 : ℤ))
                else min (pyRound ((([4, 2, 8] : List ℕ).getD (argminL [4, 2, 8]) 0 : ℚ) / (1/2)))
                         ((([4, 2, 8] : List ℕ).getD i 0 : ℤ))))
          ∧ (∀ p, m[i]? = some p → p.2 ≤ ((([4, 2, 8] : List ℕ).getD i 0 : ℤ))))
      ∧ (∀ p, m[argminL [4, 2, 8]]? = some p
          → p.2 = ((([4, 2, 8] : List ℕ).getD (argminL [4, 2, 8]) 0 : ℤ)))) :=
  ⟨(multiclass_sampling_strategy_correction (1/2) [0, 1, 2] [4, 2, 8] "SMOTE"
      (by norm_num) (by norm_num)).1 (by simp) (by norm_num) (by norm_num),
   (multiclass_sampling_strategy_correction (1/2) [0, 1, 2] [4, 2, 8] "RandomUnderSampler"
      (by norm_num) (by norm_num)).2 rfl (by norm_num) (by norm_num)⟩

/-- One step of Python's stable sort, modelled as ordered insertion: the
new element `x` is placed after every already-placed element `y` with
`le y x`, so elements comparing equal keep their original relative
order. -/
def insertStable {α : Type} (le : α → α → Bool) (x : α) : List α → List α
  | [] => [x]
  | y :: ys => if le y x then y :: insertStable le x ys else x :: y :: ys

/-- Python `sorted(l, key=...)`: stable sort by the comparison `le`,
modelled as left-to-right stable insertion. -/
def pySortedBy {α : Type} (le : α → α → Bool) (l : List α) : List α :=
  l.foldl (fun acc x => insertStable le x acc) []

/-- Running "best so far" combine: keeps the earlier element on ties. -/
def keepFirst {α : Type} (le : α → α → Bool) (m x : α) : α :=
  if le m x then m else x

/-- The first-listed best element of a list: the element that compares
`le` to every other element, preferring the earliest listed among equal
elements (this is how Python's stable `sorted(...)[0]` breaks ties). -/
def firstBestBy {α : Type} (le : α → α → Bool) : List α → Option α
  | [] => none
  | x :: xs =>
      match firstBestBy le xs with
      | none => some x
      | some m => some (if le x m then x else m)

/-- The running best is `le` the start value. -/
theorem foldl_keepFirst_le_start {α : Type} (le : α → α → Bool)
    (htot : ∀ a b, le a b = true ∨ le b a = true)
    (htrans : ∀ a b c, le a b = true → le b c = true → le a c = true)
    (l : List α) : ∀ b, le (l.foldl (keepFirst le) b) b = true := by
  induction l with
  | nil =>
      intro b
      rcases htot b b with h | h
      · simpa using h
      · simpa using h
  | cons z l ih =>
      intro b
      have h1 : le (l.foldl (keepFirst le) (keepFirst le b z)) (keepFirst le b z) = true := ih _
      have h2 : le (keepFirst le b z) b = true := by
        unfold keepFirst
        split
        · rcases htot b b with h | h
          · exact h
          · exact h
        · rename_i h
          rcases htot b z with h' | h'
          · exact absurd h' h
          · exact h'
      exact htrans _ _ _ h1 h2

/-- The running best is `le` every list element. -/
theorem foldl_keepFirst_le_mem {α : Type} (le : α → α → Bool)
    (htot : ∀ a b, le a b = true ∨ le b a = true)
    (htrans : ∀ a b c, le a b = true → le b c = true → le a c = true)
    (l : List α) : ∀ b y, y ∈ l → le (l.foldl (keepFirst le) b) y = true := by
  induction l with
  | nil => intro b y hy; cases hy
  | cons z l ih =>
      intro b y hy
      rcases List.mem_cons.mp hy with rfl | hy
      · have h1 : le (l.foldl (keepFirst le) (keepFirst le b y)) (keepFirst le b y) = true :=
          foldl_keepFirst_le_start le htot htrans l _
      
        have h2 : le (keepFirst le b y) y = true := by
          unfold keepFirst
          split
          · assumption
          · rename_i h
            rcases htot y y with h' | h'
            · exact h'
            · exact h'
        exact htrans _ _ _ h1 h2
      · exact ih _ y hy

/-- Exchanging the start value of the running-best fold for a `le`-smaller
one. -/
theorem foldl_keepFirst_exchange {α : Type} (le : α → α → Bool)
    (htot : ∀ a b, le a b = true ∨ le b a = true)
    (htrans : ∀ a b c, le a b = true → le b c = true → le a c = true)
    (l : List α) : ∀ a x, le a x = true →
      l.foldl (keepFirst le) a = keepFirst le a (l.foldl (keepFirst le) x) := by
  induction l with
  | nil =>
      intro a x hax
      simp [keepFirst, hax]
  | cons z l ih =>
      intro a x hax
      simp only [List.foldl_cons]
      by_cases haz : le a z = true
      · rw [show keepFirst le a z = a from by simp [keepFirst, haz]]
        by_cases hxz : le x z = true
        · rw [show keepFirst le x z = x from by simp [keepFirst, hxz]]
          exact ih a x hax
        · rw [show keepFirst le x z = z from by simp [keepFirst, hxz]]
          exact ih a z haz
      · have hza : le z a = true := by
          rcases htot a z with h | h
          · exact absurd h haz
          · exact h
        have hxz : ¬ le x z = true := by
          intro hxz
          exact haz (htrans _ _ _ hax hxz)
        rw [show keepFirst le a z = z from by simp [keepFirst, haz]]
        rw [show keepFirst le x z = z from by simp [keepFirst, hxz]]
        have hm : le (l.foldl (keepFirst le) z) z = true :=
          foldl_keepFirst_le_start le htot htrans l z
        have ham : ¬ le a (l.foldl (keepFirst le) z) = true := by
          intro h
          exact haz (htrans _ _ _ h hm)
        simp [keepFirst, ham]

/-- The first-listed best element equals the running-best fold. -/
theorem firstBestBy_eq_foldl {α : Type} (le : α → α → Bool)
    (htot : ∀ a b, le a b = true ∨ le b a = true)
    (htrans : ∀ a b c, le a b = true → le b c = true → le a c = true)
    (l : List α) : ∀ a, firstBestBy le (a :: l) = some (l.foldl (keepFirst le) a) := by
  induction l with
  | nil => intro a; simp [firstBestBy]
  | cons x l ih =>
      intro a
      have hx := ih x
      simp only [firstBestBy] at hx ⊢
      rw [hx]
      simp only [List.foldl_cons]
      by_cases hax : le a x = true
      · rw [show keepFirst le a x = a from by simp [keepFirst, hax]]
        rw [foldl_keepFirst_exchange le htot htrans l a x hax]
        simp [keepFirst]
      · have hm : le (l.foldl (keepFirst le) x) x = true :=
          foldl_keepFirst_le_start le htot htrans l x
        have ham : ¬ le a (l.foldl (keepFirst le) x) = true := by
          intro h
          exact hax (htrans _ _ _ h hm)
        rw [show keepFirst le a x = x from by simp [keepFirst, hax]]
        simp [ham]

/-- Head of a stable insertion. -/
theorem insertStable_head {α : Type} (le : α → α → Bool) (x y : α) (ys : List α) :
    insertStable le x (y :: ys) = if le y x then y :: insertStable le x ys else x :: y :: ys := by
  rfl

/-- The head of the stable-sort fold is the running best of the remaining
input, started at the current head. -/
theorem foldl_insertStable_head {α : Type} (le : α → α → Bool)
    (l : List α) : ∀ a acc,
      (l.foldl (fun acc x => insertStable le x acc) (a :: acc)).head?
        = some (l.foldl (keepFirst le) a) := by
  induction l with
  | nil => intro a acc; rfl
  | cons x l ih =>
      intro a acc
      simp only [List.foldl_cons, insertStable_head]
      by_cases hax : le a x = true
      · rw [if_pos hax]
        rw [show keepFirst le a x = a from by simp [keepFirst, hax]]
        exact ih a _
      · rw [if_neg hax]
        rw [show keepFirst le a x = x from by simp [keepFirst, hax]]
        exact ih x _

/-- The head of Python's stable sort is the first-listed best element:
this is exactly the first-enumerated-wins tie-breaking behaviour of
`sorted(...)` with a key function. -/
theorem pySortedBy_head {α : Type} (le : α → α → Bool)
    (htot : ∀ a b, le a b = true ∨ le b a = true)
    (htrans : ∀ a b c, le a b = true → le b c = true → le a c = true)
    (l : List α) : (pySortedBy le l).head? = firstBestBy le l := by
  cases l with
  | nil => rfl
  | cons a l =>
      rw [firstBestBy_eq_foldl le htot htrans l a]
      unfold pySortedBy
      simp only [List.foldl_cons]
      rw [show insertStable le a [] = [a] from rfl]
      exact foldl_insertStable_head le l a []

/-- Membership is preserved by stable insertion. -/
theorem mem_insertStable {α : Type} (le : α → α → Bool) (x a : α) :
    ∀ l, a ∈ insertStable le x l ↔ a = x ∨ a ∈ l := by
  intro l
  induction l with
  | nil => simp [insertStable]
  | cons y ys ih =>
      simp only [insertStable]
      split
      · rw [List.mem_cons, ih, List.mem_cons]
        tauto
      · simp only [List.mem_cons]

/-- Stable sorting permutes the input: membership is preserved. -/
theorem mem_pySortedBy {α : Type} (le : α → α → Bool) (a : α) (l : List α) :
    a ∈ pySortedBy le l ↔ a ∈ l := by
  suffices h : ∀ (m : List α) (acc : List α),
      a ∈ List.foldl (fun acc x => insertStable le x acc) acc m ↔ a ∈ acc ∨ a ∈ m by
    unfold pySortedBy
    rw [h l []]
    simp
  intro m
  induction m with
  | nil => intro acc; simp
  | cons x xs ih =>
      intro acc
      simp only [List.foldl_cons]
      rw [ih (insertStable le x acc)]
      rw [mem_insertStable]
      simp only [List.mem_cons]
      tauto

/-- A Python number as stored in a parameter dictionary: hyperopt yields
floats, the neighbor-count coercion replaces them by ints. -/
inductive PyNum where
  | float (q : ℚ)
  | int (n : ℤ)
deriving DecidableEq, Repr

/-- Numeric value of a stored parameter number. -/
def PyNum.toRat : PyNum → ℚ
  | .float q => q
  | .int n => (n : ℚ)

/-- The parameter dictionary handed to `Pipeline.set_params` for the
balancing stage: the `balancing__sampling_strategy` entry is always
present (hyperopt's space always contains it); `balancing__k_neighbors`
and `balancing__n_neighbors` are present only for the resamplers whose
space declares them. -/
structure BalanceParams where
  sampling_strategy : SS
  k_neighbors : Option PyNum := none
  n_neighbors : Option PyNum := none
deriving DecidableEq, Repr, Inhabited

/-- The neighbor coercion of `calc_pipeline_acc` (`tools_ilc.py` lines
168-171): `if "balancing__k_neighbors" in params: ... elif
"balancing__n_neighbors" in params: ...` — only the first present key is
coerced to `int`. -/
def coerceNeighbors (p : BalanceParams) : BalanceParams :=
  match p.k_neighbors with
  | some v => { p with k_neighbors := some (PyNum.int (pyTrunc v.toRat)) }
  | none =>
      match p.n_neighbors with
      | some v => { p with n_neighbors := some (PyNum.int (pyTrunc v.toRat)) }
      | none => p

/-- Reading `params["balancing__sampling_strategy"]` as the scalar float
hyperopt generated and applying `get_sampl_strat_for_case` to it; a
non-scalar value would make Python's arithmetic inside the correction
raise `TypeError`. -/
def correctSamplingStrategy (p : BalanceParams) (cc : ClassCounts) (bal : String) :
    Except String SS :=
  match p.sampling_strategy with
  | SS.ratio r => get_sampl_strat_for_case r cc bal
  | SS.perClass _ => Except.error "TypeError: sampling strategy is not a scalar"

/-- The first-fold (`count == 0`) in-place mutation of the `params` dict in
`calc_pipeline_acc` (`tools_ilc.py` lines 164-171): overwrite
`balancing__sampling_strategy` with the corrected value, then coerce the
neighbor entry. -/
def mutateParams (p : BalanceParams) (cc : ClassCounts) (bal : String) :
    Except String BalanceParams := do
  let ssc ← correctSamplingStrategy p cc bal
  pure (coerceNeighbors { p with sampling_strategy := ssc })

/-- A Python float score that may be `inf` or `-inf` (`np.inf` is appended
for a failing fold under log-loss; negation of the mean produces `-inf`). -/
inductive SVal where
  | val (q : ℚ)
  | inf
  | ninf
deriving DecidableEq, Repr

/-- Negation of a float score (`score = -score` for non-log-loss metrics). -/
def svNeg : SVal → SVal
  | .val q => .val (-q)
  | .inf => .ninf
  | .ninf => .inf

/-- Finite value of a score (only used under a no-infinity guard). -/
def svVal : SVal → ℚ
  | .val q => q
  | _ => 0

/-- `np.mean` over a list of float scores: any infinity dominates. -/
def svMean (l : List SVal) : SVal :=
  if SVal.inf ∈ l then SVal.inf
  else if SVal.ninf ∈ l then SVal.ninf
  else SVal.val ((l.map svVal).sum / l.length)

/-- Result of one `calc_pipeline_acc` call.  The source returns only
`score`; the `score_list`, the final state of the caller's `params` dict
and the parameters applied to each of the 5 internal folds are exposed as
observations of the loop so that the per-fold containment and the
in-place mutation can be stated. -/
structure PipeAccResult where
  score : SVal
  score_list : List SVal
  final_params : BalanceParams
  applied_params : List BalanceParams
deriving DecidableEq, Repr

/-- Embedding of `calc_pipeline_acc(params, x, y, bal_alg, alg, metric)`
(`tools_ilc.py` lines 126-192), the hyperopt objective.  It runs a fixed
internal `StratifiedKFold(5, shuffle=True, random_state=42)`; on the
first fold it mutates `params` in place (correction + neighbor coercion,
derived from `count_class0`, the first training fold's class counts) and
the same mutated dict is applied to every fold.  `attempt i p` models the
`try:` block on fold `i` under parameters `p`: `some q` is the metric
value, `none` means pipeline fit or predict raised; the `except:` branch
then records `np.inf` for log-loss and `0` otherwise and the loop
continues.  The final score is the mean, negated unless the metric is
log-loss (hyperopt minimises).  Exceptions outside the `try:` (a raising
correction, e.g. `ss = 0` with `RandomUnderSampler`) propagate. -/
def calc_pipeline_acc (params : BalanceParams) (count_class0 : ClassCounts)
    (bal_alg alg : String) (metric : String)
    (attempt : ℕ → BalanceParams → Option ℚ) : Except String PipeAccResult := do
  let p ← mutateParams params count_class0 bal_alg
  let score_list := (List.range 5).map (fun i =>
    match attempt i p with
    | some q => SVal.val q
    | none => if metric = "log_loss" then SVal.inf else SVal.val 0)
  let score := if metric = "log_loss" then svMean score_list else svNeg (svMean score_list)
  pure ⟨score, score_list, p, List.replicate 5 p⟩

/-- An index naming one train/test fold produced by a splitter. -/
abbrev Fold := ℕ

/-- A wall-clock duration pair is abstracted to a single number. -/
abbrev TimeD := ℚ

/-- One outer evaluation fold of `balance_exp` / `abb_exp`: its score, its
time entry, and (as observations of the loop) whether the hyperopt search
ran for it and which parameter dict was applied to the pipeline (`none`
means `set_params` was never called, i.e. the resampler and classifier
keep their default parameters). -/
structure FoldRun where
  score : ℚ
  time : TimeD
  searchInvoked : Bool
  paramsApplied : Option BalanceParams
deriving DecidableEq, Repr

/-- Construction parameters of the scikit-learn splitter objects built by
`fit_alg`: `StratifiedShuffleSplit(n_splits, test_size, random_state)` or
`StratifiedKFold(n_splits, shuffled, random_state)`. -/
inductive SplitterCfg where
  | shuffle (n_splits : ℕ) (test_size : ℚ) (random_state : ℕ)
  | kfold (n_splits : ℕ) (shuffled : Bool) (random_state : ℕ)
deriving DecidableEq, Repr

/-- The `n_splits` argument of a splitter configuration. -/
def SplitterCfg.nsplits : SplitterCfg → ℕ
  | .shuffle n _ _ => n
  | .kfold n _ _ => n

/-- The oracle environment: every call the engine makes into an external
library on a fixed dataset `(x, y)` is a field.  `split c` is
`list(splitter.split(x, y))` (scikit-learn yields `n_splits` folds on a
valid dataset — stated as a hypothesis where needed); `randomSample k` is
`random.sample(list(range(100000)), k)` after `random.seed(42)` (a fixed,
deterministic list); `search bal alg f` is `get_balance_params` on fold
`f`'s training part; `foldCounts f` is `np.unique(y_train,
return_counts=True)` on fold `f`; `fitPredict bal alg metric f p` is the
scale/fit/predict/metric sequence of `balance_exp` on fold `f` with
parameter dict `p` (`none` when it raises); `abbRun metric f` likewise
for `AutoBalanceBoost`; `finalFit label` is `fit_res_model`;
`percentile q l` is `np.percentile(l, q)`; `rankdataDense` is scipy
`rankdata(..., method='dense')`. -/
structure CVEnv where
  split : SplitterCfg → List Fold
  randomSample : ℕ → List ℕ
  search : String → String → Fold → Except String BalanceParams
  foldCounts : Fold → ClassCounts
  fitPredict : String → String → String → Fold → Option BalanceParams → Option (ℚ × TimeD)
  abbRun : String → Fold → Option (ℚ × TimeD)
  finalFit : String → Except String (ℕ × Option ℕ)
  percentile : ℚ → List ℚ → ℚ
  rankdataDense : List ℚ → List ℕ

/-- Embedding of `balance_exp(x, y, skf, bal_alg, alg, hyperopt_time,
metric)` (`tools_ilc.py` lines 239-308) over the folds yielded by the
splitter.  With a nonzero time budget, every fold first runs
`get_balance_params` (hyperopt) and re-corrects the returned
sampling-strategy value on the fold's own class counts; the resulting
dict is truthy (it always carries the sampling-strategy key), so
`set_params` applies it.  With a zero budget `balance_params` stays
`None` and `set_params` is never called.  The subsequent
`estimator.fit` / `predict` calls are not guarded by any `try:` —
a `none` from `fitPredict` aborts the whole loop with the exception.
`balanceFoldParams` is the per-fold parameter computation (lines
281-286). -/
def balanceFoldParams (env : CVEnv) (bal_alg alg : String) (hyperopt_time : ℤ) (f : Fold) :
    Except String (Option BalanceParams) :=
  if hyperopt_time ≠ 0 then do
    let p ← env.search bal_alg alg f
    let ssc ← correctSamplingStrategy p (env.foldCounts f) bal_alg
    pure (some { p with sampling_strategy := ssc })
  else pure none

/-- The per-fold body of `balance_exp` up to `set_params`: with a nonzero
budget, run the search and re-correct the sampling strategy on this
fold's class counts; with a zero budget, `balance_params = None`. -/
def balance_exp (env : CVEnv) (bal_alg alg : String) (hyperopt_time : ℤ) (metric : String) :
    List Fold → Except String (List FoldRun)
  | [] => Except.ok []
  | f :: rest => do
      let bp ← balanceFoldParams env bal_alg alg hyperopt_time f
      match env.fitPredict bal_alg alg metric f bp with
      | none => Except.error "fold exception: pipeline fit or predict raised"
      | some (sc, t) => do
          let more ← balance_exp env bal_alg alg hyperopt_time metric rest
          pure (⟨sc, t, decide (hyperopt_time ≠ 0), bp⟩ :: more)

/-- Embedding of `abb_exp(x, y, skf, metric)` (`tools_ilc.py` lines
350-397): `AutoBalanceBoost` folds run without search, scaling or
resampling parameters, and also without any `try:` guard. -/
def abb_exp (env : CVEnv) (metric : String) : List Fold → Except String (List FoldRun)
  | [] => Except.ok []
  | f :: rest =>
      match env.abbRun metric f with
      | none => Except.error "fold exception: AutoBalanceBoost fit or predict raised"
      | some (sc, t) => do
          let more ← abb_exp env metric rest
          pure (⟨sc, t, false, none⟩ :: more)

/-- Embedding of `get_cv_type(split_num)` (`tools_ilc.py` lines 39-57). -/
def get_cv_type (split_num : ℕ) : String :=
  if split_num % 5 = 0 then "kfold" else "split"

/-- The dispatch shared by both branches of `fit_alg`: `AutoBalanceBoost`
goes to `abb_exp`, otherwise `balance_exp`; a missing resampler label
would be a `KeyError` on `balance_dict[None]` (never reached by the
driver). -/
def run_splitter (env : CVEnv) (folds : List Fold) (bal_alg : Option String) (alg : String)
    (hyperopt_time : ℤ) (metric : String) : Except String (List FoldRun) :=
  if alg = "AutoBalanceBoost" then abb_exp env metric folds
  else
    match bal_alg with
    | some b => balance_exp env b alg hyperopt_time metric folds
    | none => Except.error "KeyError: None is not a balancing procedure label"

/-- Sequential evaluation over a list of splitter configurations,
extending the score/time series in order (the `for seed in seed_val:`
loop of `fit_alg`). -/
def runConfigs (env : CVEnv) (bal_alg : Option String) (alg : String) (hyperopt_time : ℤ)
    (metric : String) : List SplitterCfg → Except String (List FoldRun)
  | [] => Except.ok []
  | c :: cs => do
      let sub ← run_splitter env (env.split c) bal_alg alg hyperopt_time metric
      let more ← runConfigs env bal_alg alg hyperopt_time metric cs
      pure (sub ++ more)

/-- The splitter objects `fit_alg` constructs: one
`StratifiedShuffleSplit(n_splits=split_num, test_size=0.2,
random_state=42)` in the `"split"` regime, and one
`StratifiedKFold(n_splits=5, shuffle=True, random_state=seed)` per
sampled seed in the `"kfold"` regime. -/
def fit_alg_splitters (env : CVEnv) (cv_type : String) (split_num : ℕ) : List SplitterCfg :=
  if cv_type = "split" then [SplitterCfg.shuffle split_num (1/5) 42]
  else (env.randomSample (split_num / 5)).map (fun s => SplitterCfg.kfold 5 true s)

/-- Embedding of `fit_alg(cv_type, x, y, bal_alg, alg, hyperopt_time,
split_num, metric)` (`tools_ilc.py` lines 400-460). -/
def fit_alg (env : CVEnv) (cv_type : String) (bal_alg : Option String) (alg : String)
    (hyperopt_time : ℤ) (split_num : ℕ) (metric : String) : Except String (List FoldRun) :=
  if cv_type = "split" then
    run_splitter env (env.split (SplitterCfg.shuffle split_num (1/5) 42)) bal_alg alg
      hyperopt_time metric
  else
    runConfigs env bal_alg alg hyperopt_time metric
      ((env.randomSample (split_num / 5)).map (fun s => SplitterCfg.kfold 5 true s))

/-- `np.mean` of a list of finite scores. -/
def listMean (l : List ℚ) : ℚ := l.sum / l.length

/-- Comparator of `sorted(res_dict.items(), key=lambda item: item[1])`. -/
def leAsc (a b : String × ℚ) : Bool := decide (a.2 ≤ b.2)

/-- Comparator of `sorted(..., key=lambda item: item[1], reverse=True)`
(stable descending order by value). -/
def leDesc (a b : String × ℚ) : Bool := decide (b.2 ≤ a.2)

/-- `sorted(d.items(), key=value)`: Python's stable ascending sort. -/
def pySortAsc (l : List (String × ℚ)) : List (String × ℚ) := pySortedBy leAsc l

/-- `sorted(d.items(), key=value, reverse=True)`: Python's stable
descending sort. -/
def pySortDesc (l : List (String × ℚ)) : List (String × ℚ) := pySortedBy leDesc l

/-- The candidate grid enumerated by `choose_and_fit_ilc` (`tools_ilc.py`
lines 556-566): for each classifier `alg` in order, each resampler
`bal_alg` in order, then the lone `AutoBalanceBoost` entry. -/
def gridPairs : List (Option String × String) :=
  ((["catboost", "RF", "LGBM", "XGB"].map (fun alg =>
    ["RandomOverSampler", "SMOTE", "RandomUnderSampler", "ADASYN"].map
      (fun b => ((some b : Option String), alg)))).flatten)
  ++ [(none, "AutoBalanceBoost")]

/-- The candidate identifier built for one grid entry
(`bal_alg + "+" + alg`, or the bare `"AutoBalanceBoost"`). -/
def labelOf (p : Option String × String) : String :=
  match p.1 with
  | some b => b ++ "+" ++ p.2
  | none => "AutoBalanceBoost"

/-- The fixed 17-candidate identifier set, in enumeration order. -/
def candidate_labels : List String := gridPairs.map labelOf

/-- Sequential effectful map over a list (the candidate loop of
`choose_and_fit_ilc`): the first exception aborts the whole loop. -/
def mapE {α β : Type} (f : α → Except String β) : List α → Except String (List β)
  | [] => Except.ok []
  | a :: as => do
      let b ← f a
      let bs ← mapE f as
      pure (b :: bs)

/-- Python dict access `d[k]` on an association list with unique keys
(first matching entry). -/
def dictGet {β : Type} [Inhabited β] (d : List (String × β)) (k : String) : β :=
  match d.find? (fun p => p.1 = k) with
  | some p => p.2
  | none => default

/-- The configuration attributes of an `ImbalancedLearningClassifier`
instance read by `choose_and_fit_ilc`. -/
structure IlcConfig where
  split_num : ℕ
  hyperopt_time : ℤ
  eval_metric : String
deriving DecidableEq, Repr

/-- The 7-tuple returned by `choose_and_fit_ilc` (`tools_ilc.py` line
578), field for field in the source's return order: `(classifier,
option_label, score, scaler, score_dict, time_dict, conf_int)`. -/
structure IlcRet where
  classifier : ℕ
  option_label : String
  score : ℚ
  scaler : Option ℕ
  score_dict : List (String × List ℚ)
  time_dict : List (String × List TimeD)
  conf_int : ℚ × ℚ
deriving DecidableEq, Repr, Inhabited

/-- Embedding of `choose_and_fit_ilc(self, x, y)` (`tools_ilc.py` lines
516-578): evaluate the 17 candidates in grid order via `fit_alg`
(any exception propagates), build the score/time/mean dictionaries in
insertion order, stable-sort the means (ascending for log-loss,
descending otherwise), take the first entry as winner, refit it on the
full data and attach the 2.5/97.5 percentile interval of its score
series. -/
def choose_and_fit_ilc (cfg : IlcConfig) (env : CVEnv) : Except String IlcRet := do
  let entries ← mapE (fun p => do
      let runs ← fit_alg env (get_cv_type cfg.split_num) p.1 p.2 cfg.hyperopt_time
        cfg.split_num cfg.eval_metric
      pure (labelOf p, runs)) gridPairs
  let score_dict := entries.map (fun e => (e.1, e.2.map FoldRun.score))
  let time_dict := entries.map (fun e => (e.1, e.2.map FoldRun.time))
  let res_dict := score_dict.map (fun e => (e.1, listMean e.2))
  let sorted_res := if cfg.eval_metric = "log_loss" then pySortAsc res_dict
                    else pySortDesc res_dict
  match sorted_res with
  | [] => Except.error "IndexError: list index out of range"
  | top :: _ => do
      let fr ← env.finalFit top.1
      pure ⟨fr.1, top.1, top.2, fr.2, score_dict, time_dict,
        (env.percentile (5/2) (dictGet score_dict top.1),
         env.percentile (195/2) (dictGet score_dict top.1))⟩

/-- One component of the tuple assembled by a Python `return a, b, ...`
statement, as seen by tuple unpacking in the caller. -/
inductive PyVal where
  | clf (c : ℕ)
  | str (s : String)
  | num (q : ℚ)
  | scaler (s : Option ℕ)
  | sdict (d : List (String × List ℚ))
  | tdict (d : List (String × List TimeD))
  | pair (a b : ℚ)
deriving DecidableEq, Repr

/-- The tuple value returned by `choose_and_fit_ilc`, as the iterable the
caller's assignment unpacks: seven components, in the source's order. -/
def ilcRetComponents (r : IlcRet) : List PyVal :=
  [PyVal.clf r.classifier, PyVal.str r.option_label, PyVal.num r.score,
   PyVal.scaler r.scaler, PyVal.sdict r.score_dict, PyVal.tdict r.time_dict,
   PyVal.pair r.conf_int.1 r.conf_int.2]

/-- Python's unpacking of an iterable into exactly 6 assignment targets
(`a, b, c, d, e, f = it`): a `ValueError` unless the iterable has exactly
6 elements. -/
def pyUnpack6 (l : List PyVal) :
    Except String (PyVal × PyVal × PyVal × PyVal × PyVal × PyVal) :=
  match l with
  | [a, b, c, d, e, f] => Except.ok (a, b, c, d, e, f)
  | l =>
      if l.length < 6 then Except.error "ValueError: not enough values to unpack (expected 6)"
      else Except.error "ValueError: too many values to unpack (expected 6)"

/-- The attributes of an `ImbalancedLearningClassifier` instance
(`ilc.py` lines 47-59; `classifer_` is the source's spelling). -/
structure ILCState where
  classifer_ : Option PyVal := none
  classifer_label_ : Option PyVal := none
  score_ : Option PyVal := none
  scaler_ : Option PyVal := none
  evaluated_models_scores_ : Option PyVal := none
  evaluated_models_time_ : Option PyVal := none
  split_num : ℕ := 5
  hyperopt_time : ℤ := 0
  eval_metric : String := "f1_macro"
deriving DecidableEq, Repr, Inhabited

/-- Embedding of `ImbalancedLearningClassifier.fit(X, y)` (`ilc.py` lines
61-85) after its input validation: call `choose_and_fit_ilc` and unpack
its return value into the SIX attributes named on lines 80-81.  The
source's assignment lists 6 targets while `choose_and_fit_ilc` returns a
7-tuple, so the unpacking itself decides the outcome. -/
def ImbalancedLearningClassifier_fit (st : ILCState) (env : CVEnv) :
    Except String ILCState := do
  let r ← choose_and_fit_ilc ⟨st.split_num, st.hyperopt_time, st.eval_metric⟩ env
  match pyUnpack6 (ilcRetComponents r) with
  | Except.error e => Except.error e
  | Except.ok (a, b, c, d, e, f) =>
      pure { st with classifer_ := some a, classifer_label_ := some b, score_ := some c,
                     scaler_ := some d, evaluated_models_scores_ := some e,
                     evaluated_models_time_ := some f }

/-- Reduction of a successful `Except` bind. -/
theorem exceptBindOk {α β : Type} (a : α) (f : α → Except String β) :
    (Except.ok a >>= f) = f a := rfl

/-- Reduction of a failed `Except` bind. -/
theorem exceptBindErr {α β : Type} (e : String) (f : α → Except String β) :
    ((Except.error e : Except String α) >>= f) = Except.error e := rfl

/-- `pure` on `Except` is `Except.ok`. -/
theorem exceptPureEq {α : Type} (a : α) : (pure a : Except String α) = Except.ok a := rfl

/-- C1: `fit` never returns `self`.  `choose_and_fit_ilc` returns a
7-tuple (`classifier, option_label, score, scaler, score_dict, time_dict,
conf_int`) while the assignment in `fit` (`ilc.py` lines 80-81) names
only 6 attributes, so for EVERY dataset and configuration the unpacking
raises `ValueError: too many values to unpack` (and if the selection run
itself raises, that exception propagates instead); the Fit Result fields
are never populated. -/
theorem ilc_fit_never_returns_self (st : ILCState) (env : CVEnv) :
    ImbalancedLearningClassifier_fit st env
      = Except.error
          (match choose_and_fit_ilc ⟨st.split_num, st.hyperopt_time, st.eval_metric⟩ env with
            | Except.ok _ => "ValueError: too many values to unpack (expected 6)"
            | Except.error e => e) := by
  unfold ImbalancedLearningClassifier_fit
  cases h : choose_and_fit_ilc ⟨st.split_num, st.hyperopt_time, st.eval_metric⟩ env with
  | error e => rfl
  | ok r => rfl

/-- A concrete environment in which every pipeline fit raises: the
`fitPredict` and `abbRun` oracles return `none` on every fold. -/
def envErr : CVEnv where
  split := fun _ => [0]
  randomSample := fun k => List.range k
  search := fun _ _ _ => Except.ok default
  foldCounts := fun _ => ([0, 1], [1, 4])
  fitPredict := fun _ _ _ _ _ => none
  abbRun := fun _ _ => none
  finalFit := fun _ => Except.ok (0, none)
  percentile := fun _ _ => 0
  rankdataDense := fun l => List.replicate l.length 1

/-- C2 counterexample: an exception in the outer fold fit of
`balance_exp` is NOT contained — it escapes `balance_exp`, `fit_alg` and
the driver `choose_and_fit_ilc` (here on a one-fold split with
`hyperopt_time = 0`, where the very first candidate's first fold
raises). -/
theorem balance_exp_exception_escapes_cx :
    balance_exp envErr "RandomOverSampler" "catboost" 0 "f1_macro" [0]
      = Except.error "fold exception: pipeline fit or predict raised"
    ∧ fit_alg envErr "split" (some "RandomOverSampler") "catboost" 0 1 "f1_macro"
      = Except.error "fold exception: pipeline fit or predict raised"
    ∧ choose_and_fit_ilc ⟨1, 0, "f1_macro"⟩ envErr
      = Except.error "fold exception: pipeline fit or predict raised" :=
  ⟨rfl, rfl, rfl⟩

/-- C2 (amended): the fold-failure containment lives in
`calc_pipeline_acc` (the hyperopt objective): a fold of its internal
5-fold loop whose pipeline fit or predict raises is recorded as `np.inf`
for log-loss and `0` otherwise, the loop always completes all 5 folds
and no exception escapes the `try:` block.  In `balance_exp`, by
contrast, the outer fold fit/predict has no containment: its exception
escapes (see the counterexample for the propagation to `fit_alg` and
the driver). -/
theorem calc_pipeline_acc_containment :
    (∀ (params : BalanceParams) (cc : ClassCounts) (bal alg metric : String)
       (attempt : ℕ → BalanceParams → Option ℚ) (res : PipeAccResult),
      calc_pipeline_acc params cc bal alg metric attempt = Except.ok res →
        res.score_list.length = 5
        ∧ (∀ i, i < 5 → attempt i res.final_params = none →
            res.score_list[i]? = some (if metric = "log_loss" then SVal.inf else SVal.val 0)))
    ∧ (∀ (env : CVEnv) (f : Fold) (rest : List Fold) (bal alg metric : String),
        env.fitPredict bal alg metric f none = none →
        balance_exp env bal alg 0 metric (f :: rest)
          = Except.error "fold exception: pipeline fit or predict raised") := by
  constructor
  · intro params cc bal alg metric attempt res h
    unfold calc_pipeline_acc at h
    cases hm : mutateParams params cc bal with
    | error e => rw [hm, exceptBindErr] at h; exact absurd h (by simp)
    | ok p =>
        rw [hm, exceptBindOk, exceptPureEq] at h
        have hres : res = ⟨(if metric = "log_loss" then
            svMean ((List.range 5).map (fun i =>
              match attempt i p with
              | some q => SVal.val q
              | none => if metric = "log_loss" then SVal.inf else SVal.val 0))
          else svNeg (svMean ((List.range 5).map (fun i =>
              match attempt i p with
              | some q => SVal.val q
              | none => if metric = "log_loss" then SVal.inf else SVal.val 0)))),
          (List.range 5).map (fun i =>
              match attempt i p with
              | some q => SVal.val q
              | none => if metric = "log_loss" then SVal.inf else SVal.val 0),
          p, List.replicate 5 p⟩ := by
          cases h
          rfl
        subst hres
        refine ⟨by simp, ?_⟩
        intro i hi hatt
        simp only [List.getElem?_map, List.getElem?_range hi, Option.map_some'] at *
        rw [hatt]
  · intro env f rest bal alg metric hfp
    unfold balance_exp
    simp [balanceFoldParams, hfp]

/-- Constant parameter dict used by the C2 and C10 witnesses. -/
def paramsW : BalanceParams := ⟨SS.ratio (1/2), none, none⟩

/-- Class counts used by the C2 and C10 witnesses. -/
def ccW : ClassCounts := ([0, 1], [1, 4])

/-- An always-raising fold attempt oracle. -/
def attemptFail : ℕ → BalanceParams → Option ℚ := fun _ _ => none

/-- The `calc_pipeline_acc` observation record produced from `paramsW`,
`ccW` and `attemptFail` under log-loss. -/
def resFailW : PipeAccResult :=
  ⟨SVal.inf, List.replicate 5 SVal.inf, ⟨SS.ratio (1/2), none, none⟩,
   List.replicate 5 ⟨SS.ratio (1/2), none, none⟩⟩

/-- Evaluation of `calc_pipeline_acc` at the C2/C10 witness input: every
fold raises, so every recorded fold score is `np.inf` under log-loss. -/
theorem calc_pipeline_acc_fail_eval :
    calc_pipeline_acc paramsW ccW "SMOTE" "RF" "log_loss" attemptFail
      = Except.ok resFailW := by
  have hg : get_sampl_strat_for_case (1/2) ccW "SMOTE" = Except.ok (SS.ratio (1/2)) := by
    norm_num [ccW, get_sampl_strat_for_case, argminL, argminAux, argmaxL, argmaxAux]
  unfold calc_pipeline_acc mutateParams correctSamplingStrategy paramsW
  simp [coerceNeighbors, resFailW, attemptFail, svMean, List.range_succ]
  rw [show ((2 : ℚ))⁻¹ = 1/2 from by norm_num, hg]
  rfl

/-- C2 witness: the containment theorem instantiated at a concrete input
on which every internal fold raises, plus the escape statement at the
concrete failing environment. -/
theorem calc_pipeline_acc_containment_witness :
    (resFailW.score_list.length = 5
      ∧ (∀ i, i < 5 → attemptFail i resFailW.final_params = none →
          resFailW.score_list[i]?
            = some (if "log_loss" = "log_loss" then SVal.inf else SVal.val 0)))
    ∧ balance_exp envErr "SMOTE" "RF" 0 "f1_macro" [0]
        = Except.error "fold exception: pipeline fit or predict raised" :=
  ⟨calc_pipeline_acc_containment.1 paramsW ccW "SMOTE" "RF" "log_loss" attemptFail resFailW
      calc_pipeline_acc_fail_eval,
   calc_pipeline_acc_containment.2 envErr 0 [] "SMOTE" "RF" "f1_macro" rfl⟩

/-- C10 counterexample: the first-fold mutation can write back exactly the
original value, in which case the caller's dict does NOT differ after the
call: with two equal classes and raw ratio `1`, the binary correction is
`max(5/5, 1) = 1` and there is no neighbor key to coerce, so the dict is
unchanged. -/
theorem params_mutation_no_change_cx :
    ∃ res, calc_pipeline_acc ⟨SS.ratio 1, none, none⟩ ([0, 1], [5, 5]) "RandomOverSampler"
        "RF" "f1_macro" (fun _ _ => some 1) = Except.ok res
      ∧ res.final_params = ⟨SS.ratio 1, none, none⟩ := by
  have hg : get_sampl_strat_for_case 1 ([0, 1], [5, 5]) "RandomOverSampler"
      = Except.ok (SS.ratio 1) := by
    norm_num [get_sampl_strat_for_case, argminL, argminAux, argmaxL, argmaxAux]
  refine ⟨⟨SVal.val (-1), List.replicate 5 (SVal.val 1), ⟨SS.ratio 1, none, none⟩,
    List.replicate 5 ⟨SS.ratio 1, none, none⟩⟩, ?_, rfl⟩
  unfold calc_pipeline_acc mutateParams correctSamplingStrategy
  simp [hg, coerceNeighbors, svMean, svVal, svNeg, List.range_succ]
  norm_num

/-- C10 (amended): `calc_pipeline_acc` overwrites the caller's `params`
dict on its first internal fold — the sampling-strategy entry is replaced
by the corrected value derived from the first fold's class counts and the
first neighbor entry is coerced to an integer — and this same mutated
dict is what `set_params` applies on all five internal folds, so later
folds reuse the first fold's correction.  The caller's dict afterwards
equals the mutated dict, which (contrary to the claim) may coincide with
the original (see the counterexample). -/
theorem calc_pipeline_acc_mutates_params :
    ∀ (params : BalanceParams) (cc : ClassCounts) (bal alg metric : String)
      (attempt : ℕ → BalanceParams → Option ℚ) (res : PipeAccResult),
      calc_pipeline_acc params cc bal alg metric attempt = Except.ok res →
        (∃ ssc, correctSamplingStrategy params cc bal = Except.ok ssc
          ∧ res.final_params = coerceNeighbors { params with sampling_strategy := ssc })
        ∧ res.applied_params = List.replicate 5 res.final_params := by
  intro params cc bal alg metric attempt res h
  unfold calc_pipeline_acc mutateParams at h
  cases hc : correctSamplingStrategy params cc bal with
  | error e => rw [hc, exceptBindErr, exceptBindErr] at h; exact absurd h (by simp)
  | ok ssc =>
      rw [hc, exceptBindOk, exceptPureEq, exceptBindOk, exceptPureEq] at h
      cases h
      exact ⟨⟨ssc, rfl, rfl⟩, rfl⟩

/-- Parameter dict with a float neighbor entry, for the C10 witness. -/
def paramsKW : BalanceParams := ⟨SS.ratio (1/2), some (PyNum.float (11/2)), none⟩

/-- The mutated dict: corrected strategy, neighbor coerced to `int(5.5) = 5`. -/
def paramsKWmut : BalanceParams := ⟨SS.ratio (1/2), some (PyNum.int 5), none⟩

/-- The observation record for the C10 witness run. -/
def resMutW : PipeAccResult :=
  ⟨SVal.val (-1), List.replicate 5 (SVal.val 1), paramsKWmut, List.replicate 5 paramsKWmut⟩

/-- Evaluation of `calc_pipeline_acc` at the C10 witness input. -/
theorem calc_pipeline_acc_mut_eval :
    calc_pipeline_acc paramsKW ccW "SMOTE" "RF" "f1_macro" (fun _ _ => some 1)
      = Except.ok resMutW := by
  have hg : get_sampl_strat_for_case (1/2) ccW "SMOTE" = Except.ok (SS.ratio (1/2)) := by
    norm_num [ccW, get_sampl_strat_for_case, argminL, argminAux, argmaxL, argmaxAux]
  unfold calc_pipeline_acc mutateParams correctSamplingStrategy paramsKW
  simp [coerceNeighbors, resMutW, svMean, svVal, svNeg, List.range_succ, PyNum.toRat,
    pyTrunc, paramsKWmut]
  rw [show ((2 : ℚ))⁻¹ = 1/2 from by norm_num, hg]
  simp
  constructor
  · norm_num
  · norm_num

/-- C10 witness: the mutation theorem instantiated at a concrete input
with a neighbor entry, exhibiting the in-place correction, the integer
coercion and the reuse of the mutated dict on all five folds. -/
theorem calc_pipeline_acc_mutates_params_witness :
    (∃ ssc, correctSamplingStrategy paramsKW ccW "SMOTE" = Except.ok ssc
      ∧ resMutW.final_params = coerceNeighbors { paramsKW with sampling_strategy := ssc })
    ∧ resMutW.applied_params = List.replicate 5 resMutW.final_params :=
  calc_pipeline_acc_mutates_params paramsKW ccW "SMOTE" "RF" "f1_macro"
    (fun _ _ => some 1) resMutW calc_pipeline_acc_mut_eval

/-- `balance_exp` yields exactly one score/time record per fold whenever
it succeeds. -/
theorem balance_exp_ok_length (env : CVEnv) (bal alg : String) (ht : ℤ) (metric : String) :
    ∀ (folds : List Fold) (runs : List FoldRun),
      balance_exp env bal alg ht metric folds = Except.ok runs →
      runs.length = folds.length := by
  intro folds
  induction folds with
  | nil =>
      intro runs h
      unfold balance_exp at h
      cases h
      rfl
  | cons f rest ih =>
      intro runs h
      unfold balance_exp at h
      cases hbp : balanceFoldParams env bal alg ht f with
      | error e => rw [hbp, exceptBindErr] at h; exact absurd h (by simp)
      | ok bp =>
          rw [hbp, exceptBindOk] at h
          cases hfp : env.fitPredict bal alg metric f bp with
          | none => simp only [hfp] at h; exact absurd h (by simp)
          | some p =>
              obtain ⟨sc, t⟩ := p
              simp only [hfp] at h
              cases hrest : balance_exp env bal alg ht metric rest with
              | error e => rw [hrest, exceptBindErr] at h; exact absurd h (by simp)
              | ok more =>
                  rw [hrest, exceptBindOk, exceptPureEq] at h
                  cases h
                  simp [ih more hrest]

/-- `abb_exp` yields exactly one record per fold whenever it succeeds. -/
theorem abb_exp_ok_length (env : CVEnv) (metric : String) :
    ∀ (folds : List Fold) (runs : List FoldRun),
      abb_exp env metric folds = Except.ok runs → runs.length = folds.length := by
  intro folds
  induction folds with
  | nil =>
      intro runs h
      unfold abb_exp at h
      cases h
      rfl
  | cons f rest ih =>
      intro runs h
      unfold abb_exp at h
      cases hfp : env.abbRun metric f with
      | none => simp only [hfp] at h; exact absurd h (by simp)
      | some p =>
          obtain ⟨sc, t⟩ := p
          simp only [hfp] at h
          cases hrest : abb_exp env metric rest with
          | error e => rw [hrest, exceptBindErr] at h; exact absurd h (by simp)
          | ok more =>
              rw [hrest, exceptBindOk, exceptPureEq] at h
              cases h
              simp [ih more hrest]

/-- `run_splitter` yields one record per fold whenever it succeeds. -/
theorem run_splitter_ok_length (env : CVEnv) (folds : List Fold) (bal : Option String)
    (alg : String) (ht : ℤ) (metric : String) (runs : List FoldRun)
    (h : run_splitter env folds bal alg ht metric = Except.ok runs) :
    runs.length = folds.length := by
  unfold run_splitter at h
  by_cases ha : alg = "AutoBalanceBoost"
  · rw [if_pos ha] at h
    exact abb_exp_ok_length env metric folds runs h
  · rw [if_neg ha] at h
    cases bal with
    | none => exact absurd h (by simp)
    | some b => exact balance_exp_ok_length env b alg ht metric folds runs h

/-- `runConfigs` yields one record per fold of each configured splitter
whenever it succeeds. -/
theorem runConfigs_ok_length (env : CVEnv) (bal : Option String) (alg : String) (ht : ℤ)
    (metric : String) :
    ∀ (cfgs : List SplitterCfg) (runs : List FoldRun),
      runConfigs env bal alg ht metric cfgs = Except.ok runs →
      runs.length = (cfgs.map (fun c => (env.split c).length)).sum := by
  intro cfgs
  induction cfgs with
  | nil =>
      intro runs h
      unfold runConfigs at h
      cases h
      rfl
  | cons c cs ih =>
      intro runs h
      unfold runConfigs at h
      cases hsub : run_splitter env (env.split c) bal alg ht metric with
      | error e => rw [hsub, exceptBindErr] at h; exact absurd h (by simp)
      | ok sub =>
          rw [hsub, exceptBindOk] at h
          cases hmore : runConfigs env bal alg ht metric cs with
          | error e => rw [hmore, exceptBindErr] at h; exact absurd h (by simp)
          | ok more =>
              rw [hmore, exceptBindOk, exceptPureEq] at h
              cases h
              simp [run_splitter_ok_length env (env.split c) bal alg ht metric sub hsub,
                ih more hmore]

/-- With a zero hyperopt budget, no `balance_exp` fold invokes the search
and none applies parameters. -/
theorem balance_exp_zero_defaults (env : CVEnv) (bal alg metric : String) :
    ∀ (folds : List Fold) (runs : List FoldRun),
      balance_exp env bal alg 0 metric folds = Except.ok runs →
      ∀ r ∈ runs, r.searchInvoked = false ∧ r.paramsApplied = none := by
  intro folds
  induction folds with
  | nil =>
      intro runs h r hr
      unfold balance_exp at h
      cases h
      cases hr
  | cons f rest ih =>
      intro runs h r hr
      unfold balance_exp at h
      rw [show balanceFoldParams env bal alg 0 f = Except.ok none from rfl,
        exceptBindOk] at h
      cases hfp : env.fitPredict bal alg metric f none with
      | none => simp only [hfp] at h; exact absurd h (by simp)
      | some p =>
          obtain ⟨sc, t⟩ := p
          simp only [hfp] at h
          cases hrest : balance_exp env bal alg 0 metric rest with
          | error e => rw [hrest, exceptBindErr] at h; exact absurd h (by simp)
          | ok more =>
              rw [hrest, exceptBindOk, exceptPureEq] at h
              cases h
              rcases List.mem_cons.mp hr with rfl | hr'
              · exact ⟨by norm_num, rfl⟩
              · exact ih more hrest r hr'

/-- Every `abb_exp` record reports no search and no applied parameters. -/
theorem abb_exp_defaults (env : CVEnv) (metric : String) :
    ∀ (folds : List Fold) (runs : List FoldRun),
      abb_exp env metric folds = Except.ok runs →
      ∀ r ∈ runs, r.searchInvoked = false ∧ r.paramsApplied = none := by
  intro folds
  induction folds with
  | nil =>
      intro runs h r hr
      unfold abb_exp at h
      cases h
      cases hr
  | cons f rest ih =>
      intro runs h r hr
      unfold abb_exp at h
      cases hfp : env.abbRun metric f with
      | none => simp only [hfp] at h; exact absurd h (by simp)
      | some p =>
          obtain ⟨sc, t⟩ := p
          simp only [hfp] at h
          cases hrest : abb_exp env metric rest with
          | error e => rw [hrest, exceptBindErr] at h; exact absurd h (by simp)
          | ok more =>
              rw [hrest, exceptBindOk, exceptPureEq] at h
              cases h
              rcases List.mem_cons.mp hr with rfl | hr'
              · exact ⟨rfl, rfl⟩
              · exact ih more hrest r hr'

/-- Zero-budget defaults carry through `run_splitter`. -/
theorem run_splitter_zero_defaults (env : CVEnv) (folds : List Fold) (bal : Option String)
    (alg metric : String) (runs : List FoldRun)
    (h : run_splitter env folds bal alg 0 metric = Except.ok runs) :
    ∀ r ∈ runs, r.searchInvoked = false ∧ r.paramsApplied = none := by
  unfold run_splitter at h
  by_cases ha : alg = "AutoBalanceBoost"
  · rw [if_pos ha] at h
    exact abb_exp_defaults env metric folds runs h
  · rw [if_neg ha] at h
    cases bal with
    | none => exact absurd h (by simp)
    | some b => exact balance_exp_zero_defaults env b alg metric folds runs h

/-- Zero-budget defaults carry through `runConfigs`. -/
theorem runConfigs_zero_defaults (env : CVEnv) (bal : Option String) (alg metric : String) :
    ∀ (cfgs : List SplitterCfg) (runs : List FoldRun),
      runConfigs env bal alg 0 metric cfgs = Except.ok runs →
      ∀ r ∈ runs, r.searchInvoked = false ∧ r.paramsApplied = none := by
  intro cfgs
  induction cfgs with
  | nil =>
      intro runs h r hr
      unfold runConfigs at h
      cases h
      cases hr
  | cons c cs ih =>
      intro runs h r hr
      unfold runConfigs at h
      cases hsub : run_splitter env (env.split c) bal alg 0 metric with
      | error e => rw [hsub, exceptBindErr] at h; exact absurd h (by simp)
      | ok sub =>
          rw [hsub, exceptBindOk] at h
          cases hmore : runConfigs env bal alg 0 metric cs with
          | error e => rw [hmore, exceptBindErr] at h; exact absurd h (by simp)
          | ok more =>
              rw [hmore, exceptBindOk, exceptPureEq] at h
              cases h
              rcases List.mem_append.mp hr with hr' | hr'
              · exact run_splitter_zero_defaults env (env.split c) bal alg metric sub hsub r hr'
              · exact ih more hmore r hr'

/-- C7: with `hyperopt_time = 0` the hyper-parameter search is never
invoked in any fold of a `fit_alg` run, `set_params` is never called and
every fold's pipeline keeps the resamplers' default parameters: no
sampling-strategy correction and no neighbor-count coercion is applied
(both occur only inside the search branch). -/
theorem hyperopt_zero_uses_defaults (env : CVEnv) (cv : String) (bal : Option String)
    (alg : String) (n : ℕ) (metric : String) (runs : List FoldRun)
    (h : fit_alg env cv bal alg 0 n metric = Except.ok runs) :
    ∀ r ∈ runs, r.searchInvoked = false ∧ r.paramsApplied = none := by
  unfold fit_alg at h
  by_cases hcv : cv = "split"
  · rw [if_pos hcv] at h
    exact run_splitter_zero_defaults env _ bal alg metric runs h
  · rw [if_neg hcv] at h
    exact runConfigs_zero_defaults env bal alg metric _ runs h

/-- A fully successful oracle environment: every fold fit succeeds with
score 1, splitters yield `n_splits` folds, sampling is the identity
enumeration. -/
def envOk : CVEnv where
  split := fun c => List.range c.nsplits
  randomSample := fun k => List.range k
  search := fun _ _ _ => Except.ok ⟨SS.ratio 1, none, none⟩
  foldCounts := fun _ => ([0, 1], [1, 4])
  fitPredict := fun _ _ _ _ _ => some (1, 1)
  abbRun := fun _ _ => some (1, 1)
  finalFit := fun _ => Except.ok (0, none)
  percentile := fun _ _ => 0
  rankdataDense := fun l => List.replicate l.length 1

/-- C7 witness: a concrete three-iteration shuffle-split run with zero
budget; its first fold record reports no search and default parameters. -/
theorem hyperopt_zero_uses_defaults_witness :
    (⟨1, 1, false, none⟩ : FoldRun).searchInvoked = false
    ∧ (⟨1, 1, false, none⟩ : FoldRun).paramsApplied = none :=
  hyperopt_zero_uses_defaults envOk "split" (some "SMOTE") "RF" 3 "f1_macro"
    [⟨1, 1, false, none⟩, ⟨1, 1, false, none⟩, ⟨1, 1, false, none⟩] rfl
    ⟨1, 1, false, none⟩ (by simp)

/-- C5: regime selection and series length.  Under the scikit-learn
contract that a splitter yields `n_splits` folds and the `random.sample`
contract that `k` seeds are drawn, a `split_num` divisible by 5 selects
the `"kfold"` regime — `split_num / 5` repetitions of 5-fold
`StratifiedKFold(shuffle=True)` seeded from the deterministically sampled
seed list — and any other positive `split_num` selects the `"split"`
regime — a single `StratifiedShuffleSplit` with `split_num` iterations
holding out `test_size = 1/5`; in both regimes a successful run produces
exactly `split_num` fold records (hence score and time series of length
`split_num`). -/
theorem fit_alg_split_regimes (env : CVEnv) (bal : Option String) (alg : String) (ht : ℤ)
    (n : ℕ) (metric : String)
    (hsplit : ∀ c : SplitterCfg, (env.split c).length = c.nsplits)
    (hsample : ∀ k, (env.randomSample k).length = k)
    (hpos : 0 < n) :
    (n % 5 = 0 → get_cv_type n = "kfold"
      ∧ fit_alg_splitters env "kfold" n
          = (env.randomSample (n / 5)).map (fun s => SplitterCfg.kfold 5 true s))
    ∧ (n % 5 ≠ 0 → get_cv_type n = "split"
      ∧ fit_alg_splitters env "split" n = [SplitterCfg.shuffle n (1/5) 42])
    ∧ fit_alg env (get_cv_type n) bal alg ht n metric
        = runConfigs env bal alg ht metric (fit_alg_splitters env (get_cv_type n) n)
    ∧ (∀ runs, fit_alg env (get_cv_type n) bal alg ht n metric = Except.ok runs →
        runs.length = n) := by
  have hbridge : fit_alg env (get_cv_type n) bal alg ht n metric
      = runConfigs env bal alg ht metric (fit_alg_splitters env (get_cv_type n) n) := by
    by_cases h5 : n % 5 = 0
    · have hcv : get_cv_type n = "kfold" := by simp [get_cv_type, h5]
      rw [hcv]
      unfold fit_alg fit_alg_splitters
      rw [if_neg (by decide), if_neg (by decide)]
    · have hcv : get_cv_type n = "split" := by simp [get_cv_type, h5]
      rw [hcv]
      unfold fit_alg fit_alg_splitters
      rw [if_pos rfl, if_pos rfl]
      unfold runConfigs
      cases hs : run_splitter env (env.split (SplitterCfg.shuffle n (1/5) 42)) bal alg ht metric with
      | error e => rw [exceptBindErr]
      | ok sub =>
          rw [exceptBindOk,
            show runConfigs env bal alg ht metric ([] : List SplitterCfg) = Except.ok []
              from rfl, exceptBindOk, exceptPureEq, List.append_nil]
  refine ⟨?_, ?_, hbridge, ?_⟩
  · intro h5
    have hcv : get_cv_type n = "kfold" := by simp [get_cv_type, h5]
    exact ⟨hcv, by unfold fit_alg_splitters; rw [if_neg (by decide)]⟩
  · intro h5
    have hcv : get_cv_type n = "split" := by simp [get_cv_type, h5]
    exact ⟨hcv, by unfold fit_alg_splitters; rw [if_pos rfl]⟩
  · intro runs h
    by_cases h5 : n % 5 = 0
    · have hcv : get_cv_type n = "kfold" := by simp [get_cv_type, h5]
      rw [hcv] at h
      unfold fit_alg at h
      rw [if_neg (by decide)] at h
      have hlen := runConfigs_ok_length env bal alg ht metric _ runs h
      rw [List.map_map] at hlen
      have hpt : ((env.randomSample (n / 5)).map
          ((fun c => (env.split c).length) ∘ fun s => SplitterCfg.kfold 5 true s))
          = (env.randomSample (n / 5)).map (fun _ => 5) := by
        apply List.map_congr_left
        intro s _
        simp [Function.comp, hsplit (SplitterCfg.kfold 5 true s), SplitterCfg.nsplits]
      rw [hpt] at hlen
      have hdvd : n / 5 * 5 = n := Nat.div_mul_cancel (Nat.dvd_of_mod_eq_zero h5)
      have hcount := hsample (n / 5)
      have hsum : ((env.randomSample (n / 5)).map (fun _ => 5)).sum
          = (env.randomSample (n / 5)).length * 5 := by
        induction env.randomSample (n / 5) with
        | nil => simp
        | cons a l ihl => simp [ihl]; ring
      rw [hsum, hcount] at hlen
      omega
    · have hcv : get_cv_type n = "split" := by simp [get_cv_type, h5]
      rw [hcv] at h
      unfold fit_alg at h
      rw [if_pos rfl] at h
      have hlen := run_splitter_ok_length env _ bal alg ht metric runs h
      rw [hsplit (SplitterCfg.shuffle n (1/5) 42)] at hlen
      exact hlen

/-- C5 witness: the regime theorem instantiated at a concrete
contract-satisfying environment with `split_num = 6`. -/
theorem fit_alg_split_regimes_witness :
    (6 % 5 = 0 → get_cv_type 6 = "kfold"
      ∧ fit_alg_splitters envOk "kfold" 6
          = (envOk.randomSample (6 / 5)).map (fun s => SplitterCfg.kfold 5 true s))
    ∧ (6 % 5 ≠ 0 → get_cv_type 6 = "split"
      ∧ fit_alg_splitters envOk "split" 6 = [SplitterCfg.shuffle 6 (1/5) 42])
    ∧ fit_alg envOk (get_cv_type 6) (some "SMOTE") "RF" 0 6 "f1_macro"
        = runConfigs envOk (some "SMOTE") "RF" 0 "f1_macro"
            (fit_alg_splitters envOk (get_cv_type 6) 6)
    ∧ (∀ runs, fit_alg envOk (get_cv_type 6) (some "SMOTE") "RF" 0 6 "f1_macro"
          = Except.ok runs → runs.length = 6) :=
  fit_alg_split_regimes envOk (some "SMOTE") "RF" 0 6 "f1_macro"
    (fun c => by cases c <;> simp [envOk, SplitterCfg.nsplits])
    (fun k => by simp [envOk])
    (by norm_num)

/-- `mapE` preserves length on success. -/
theorem mapE_ok_length {α β : Type} (f : α → Except String β) :
    ∀ (l : List α) (r : List β), mapE f l = Except.ok r → r.length = l.length := by
  intro l
  induction l with
  | nil =>
      intro r h
      unfold mapE at h
      cases h
      rfl
  | cons a as ih =>
      intro r h
      unfold mapE at h
      cases hfa : f a with
      | error e => rw [hfa, exceptBindErr] at h; exact absurd h (by simp)
      | ok b =>
          rw [hfa, exceptBindOk] at h
          cases hrest : mapE f as with
          | error e => rw [hrest, exceptBindErr] at h; exact absurd h (by simp)
          | ok bs =>
              rw [hrest, exceptBindOk, exceptPureEq] at h
              cases h
              simp [ih bs hrest]

/-- Mapping a projection over a successful `mapE` gives the pointwise
image of the input. -/
theorem mapE_ok_map {α β γ : Type} (f : α → Except String β) (g : β → γ) (hfn : α → γ)
    (hfb : ∀ a b, f a = Except.ok b → g b = hfn a) :
    ∀ (l : List α) (r : List β), mapE f l = Except.ok r → r.map g = l.map hfn := by
  intro l
  induction l with
  | nil =>
      intro r h
      unfold mapE at h
      cases h
      rfl
  | cons a as ih =>
      intro r h
      unfold mapE at h
      cases hfa : f a with
      | error e => rw [hfa, exceptBindErr] at h; exact absurd h (by simp)
      | ok b =>
          rw [hfa, exceptBindOk] at h
          cases hrest : mapE f as with
          | error e => rw [hrest, exceptBindErr] at h; exact absurd h (by simp)
          | ok bs =>
              rw [hrest, exceptBindOk, exceptPureEq] at h
              cases h
              simp [hfb a b hfa, ih bs hrest]

/-- A successful first-best element compares `le` to every element. -/
theorem firstBestBy_le {α : Type} (le : α → α → Bool)
    (htot : ∀ a b, le a b = true ∨ le b a = true)
    (htrans : ∀ a b c, le a b = true → le b c = true → le a c = true)
    (l : List α) (w : α) (hw : firstBestBy le l = some w) :
    ∀ q ∈ l, le w q = true := by
  cases l with
  | nil => exact absurd hw (by simp [firstBestBy])
  | cons a tl =>
      rw [firstBestBy_eq_foldl le htot htrans tl a] at hw
      cases hw
      intro q hq
      rcases List.mem_cons.mp hq with rfl | hq'
      · exact foldl_keepFirst_le_start le htot htrans tl q
      · exact foldl_keepFirst_le_mem le htot htrans tl a q hq'

/-- Stable insertion adds one element. -/
theorem insertStable_length {α : Type} (le : α → α → Bool) (x : α) :
    ∀ l, (insertStable le x l).length = l.length + 1 := by
  intro l
  induction l with
  | nil => rfl
  | cons y ys ih =>
      unfold insertStable
      split
      · simp [ih]
      · simp

/-- Stable sorting preserves length. -/
theorem pySortedBy_length {α : Type} (le : α → α → Bool) (l : List α) :
    (pySortedBy le l).length = l.length := by
  suffices h : ∀ (m : List α) (acc : List α),
      (List.foldl (fun acc x => insertStable le x acc) acc m).length
        = acc.length + m.length by
    unfold pySortedBy
    rw [h l []]
    simp
  intro m
  induction m with
  | nil => intro acc; simp
  | cons x xs ih =>
      intro acc
      simp only [List.foldl_cons]
      rw [ih (insertStable le x acc), insertStable_length]
      simp
      omega

/-- `leAsc` is total. -/
theorem leAsc_total : ∀ a b : String × ℚ, leAsc a b = true ∨ leAsc b a = true := by
  intro a b
  unfold leAsc
  rcases le_total a.2 b.2 with h | h
  · exact Or.inl (by simpa using h)
  · exact Or.inr (by simpa using h)

/-- `leAsc` is transitive. -/
theorem leAsc_trans : ∀ a b c : String × ℚ,
    leAsc a b = true → leAsc b c = true → leAsc a c = true := by
  intro a b c h1 h2
  unfold leAsc at *
  simp only [decide_eq_true_eq] at *
  exact le_trans h1 h2

/-- `leDesc` is total. -/
theorem leDesc_total : ∀ a b : String × ℚ, leDesc a b = true ∨ leDesc b a = true := by
  intro a b
  unfold leDesc
  rcases le_total b.2 a.2 with h | h
  · exact Or.inl (by simpa using h)
  · exact Or.inr (by simpa using h)

/-- `leDesc` is transitive. -/
theorem leDesc_trans : ∀ a b c : String × ℚ,
    leDesc a b = true → leDesc b c = true → leDesc a c = true := by
  intro a b c h1 h2
  unfold leDesc at *
  simp only [decide_eq_true_eq] at *
  exact le_trans h2 h1

/-- C6: whenever the driver returns, it has evaluated exactly the fixed
17 candidates (4 resamplers times 4 classifiers plus `AutoBalanceBoost`)
in the fixed enumeration order; the winner and its reported score are the
FIRST-ENUMERATED candidate whose mean score is optimal — minimal mean for
log-loss, maximal mean otherwise — so that when two candidates tie on
mean score exactly, the earlier-enumerated one wins (Python's `sorted` is
stable, `firstBestBy` is precisely this first-best selection); the
winner's mean score is moreover optimal against every candidate. -/
theorem driver_ranking_winner (cfg : IlcConfig) (env : CVEnv) (ret : IlcRet)
    (h : choose_and_fit_ilc cfg env = Except.ok ret) :
    ret.score_dict.map Prod.fst = candidate_labels
    ∧ candidate_labels =
        ["RandomOverSampler+catboost", "SMOTE+catboost", "RandomUnderSampler+catboost",
         "ADASYN+catboost", "RandomOverSampler+RF", "SMOTE+RF", "RandomUnderSampler+RF",
         "ADASYN+RF", "RandomOverSampler+LGBM", "SMOTE+LGBM", "RandomUnderSampler+LGBM",
         "ADASYN+LGBM", "RandomOverSampler+XGB", "SMOTE+XGB", "RandomUnderSampler+XGB",
         "ADASYN+XGB", "AutoBalanceBoost"]
    ∧ candidate_labels.length = 17
    ∧ (if cfg.eval_metric = "log_loss"
        then firstBestBy leAsc (ret.score_dict.map (fun e => (e.1, listMean e.2)))
        else firstBestBy leDesc (ret.score_dict.map (fun e => (e.1, listMean e.2))))
        = some (ret.option_label, ret.score)
    ∧ (∀ q ∈ ret.score_dict.map (fun e => (e.1, listMean e.2)),
        if cfg.eval_metric = "log_loss" then ret.score ≤ q.2 else q.2 ≤ ret.score) := by
  unfold choose_and_fit_ilc at h
  cases hE : mapE (fun p => do
      let runs ← fit_alg env (get_cv_type cfg.split_num) p.1 p.2 cfg.hyperopt_time
        cfg.split_num cfg.eval_metric
      pure (labelOf p, runs)) gridPairs with
  | error e => rw [hE, exceptBindErr] at h; exact absurd h (by simp)
  | ok entries =>
      rw [hE, exceptBindOk] at h
      simp only at h
      cases hsort : (if cfg.eval_metric = "log_loss"
          then pySortAsc ((entries.map (fun e => (e.1, e.2.map FoldRun.score))).map
            (fun e => (e.1, listMean e.2)))
          else pySortDesc ((entries.map (fun e => (e.1, e.2.map FoldRun.score))).map
            (fun e => (e.1, listMean e.2)))) with
      | nil => simp only [hsort] at h; exact absurd h (by simp)
      | cons top rest =>
          simp only [hsort] at h
          cases hff : env.finalFit top.1 with
          | error e => rw [hff, exceptBindErr] at h; exact absurd h (by simp)
          | ok fr =>
              rw [hff, exceptBindOk, exceptPureEq] at h
              cases h
              have hkeys : (entries.map (fun e => (e.1, e.2.map FoldRun.score))).map Prod.fst
                  = candidate_labels := by
                have hmap := mapE_ok_map (fun p => do
                    let runs ← fit_alg env (get_cv_type cfg.split_num) p.1 p.2 cfg.hyperopt_time
                      cfg.split_num cfg.eval_metric
                    pure (labelOf p, runs)) Prod.fst labelOf (by
                  intro a b hab
                  have hab2 : (do
                      let runs ← fit_alg env (get_cv_type cfg.split_num) a.1 a.2 cfg.hyperopt_time
                        cfg.split_num cfg.eval_metric
                      pure (labelOf a, runs)) = Except.ok b := hab
                  cases hfa : fit_alg env (get_cv_type cfg.split_num) a.1 a.2 cfg.hyperopt_time
                      cfg.split_num cfg.eval_metric with
                  | error e => rw [hfa, exceptBindErr] at hab2; exact absurd hab2 (by simp)
                  | ok runs =>
                      rw [hfa, exceptBindOk, exceptPureEq] at hab2
                      cases hab2
                      rfl) gridPairs entries hE
                rw [show (entries.map (fun e => (e.1, e.2.map FoldRun.score))).map Prod.fst
                    = entries.map Prod.fst from by simp, hmap]
                rfl
              have hhead : (if cfg.eval_metric = "log_loss"
                  then firstBestBy leAsc ((entries.map (fun e => (e.1, e.2.map FoldRun.score))).map
                    (fun e => (e.1, listMean e.2)))
                  else firstBestBy leDesc ((entries.map (fun e => (e.1, e.2.map FoldRun.score))).map
                    (fun e => (e.1, listMean e.2)))) = some top := by
                by_cases hm : cfg.eval_metric = "log_loss"
                · rw [if_pos hm]
                  rw [if_pos hm] at hsort
                  rw [← pySortedBy_head leAsc leAsc_total leAsc_trans]
                  unfold pySortAsc at hsort
                  rw [hsort]
                  rfl
                · rw [if_neg hm]
                  rw [if_neg hm] at hsort
                  rw [← pySortedBy_head leDesc leDesc_total leDesc_trans]
                  unfold pySortDesc at hsort
                  rw [hsort]
                  rfl
              refine ⟨hkeys, by decide, by decide, ?_, ?_⟩
              · simpa using hhead
              · intro q hq
                by_cases hm : cfg.eval_metric = "log_loss"
                · rw [if_pos hm]
                  rw [if_pos hm] at hhead
                  have := firstBestBy_le leAsc leAsc_total leAsc_trans _ top hhead q hq
                  simpa [leAsc] using this
                · rw [if_neg hm]
                  rw [if_neg hm] at hhead
                  have := firstBestBy_le leDesc leDesc_total leDesc_trans _ top hhead q hq
                  simpa [leDesc] using this

/-- The 17 evaluated entries produced by the driver under `envOk` with a
one-iteration shuffle split. -/
def entriesW : List (String × List FoldRun) :=
  gridPairs.map (fun p => (labelOf p, [⟨1, 1, false, none⟩]))

/-- Under the all-succeeding environment the driver returns successfully. -/
theorem choose_ok_exists :
    ∃ ret, choose_and_fit_ilc ⟨1, 0, "f1_macro"⟩ envOk = Except.ok ret := by
  unfold choose_and_fit_ilc
  have hE : mapE (fun p => do
      let runs ← fit_alg envOk (get_cv_type (⟨1, 0, "f1_macro"⟩ : IlcConfig).split_num) p.1 p.2
        (⟨1, 0, "f1_macro"⟩ : IlcConfig).hyperopt_time
        (⟨1, 0, "f1_macro"⟩ : IlcConfig).split_num
        (⟨1, 0, "f1_macro"⟩ : IlcConfig).eval_metric
      pure (labelOf p, runs)) gridPairs = Except.ok entriesW := rfl
  rw [hE]
  simp only [exceptBindOk]
  simp only [String.reduceEq, reduceIte]
  cases hs : pySortDesc ((entriesW.map (fun e => (e.1, e.2.map FoldRun.score))).map
      (fun e => (e.1, listMean e.2))) with
  | nil =>
      exfalso
      have hlen := pySortedBy_length leDesc ((entriesW.map (fun e => (e.1, e.2.map FoldRun.score))).map
        (fun e => (e.1, listMean e.2)))
      rw [show pySortDesc ((entriesW.map (fun e => (e.1, e.2.map FoldRun.score))).map
        (fun e => (e.1, listMean e.2)))
          = pySortedBy leDesc ((entriesW.map (fun e => (e.1, e.2.map FoldRun.score))).map
        (fun e => (e.1, listMean e.2))) from rfl] at hs
      rw [hs] at hlen
      simp [entriesW, gridPairs] at hlen
  | cons top rest =>
      simp only [hs]
      rw [show envOk.finalFit top.1 = Except.ok (0, none) from rfl, exceptBindOk, exceptPureEq]
      exact ⟨_, rfl⟩

/-- C6 witness: the ranking theorem applied to the concrete successful
run of the driver under `envOk`. -/
theorem driver_ranking_winner_witness :
    ∃ ret, choose_and_fit_ilc ⟨1, 0, "f1_macro"⟩ envOk = Except.ok ret
      ∧ (ret.score_dict.map Prod.fst = candidate_labels
        ∧ candidate_labels =
            ["RandomOverSampler+catboost", "SMOTE+catboost", "RandomUnderSampler+catboost",
             "ADASYN+catboost", "RandomOverSampler+RF", "SMOTE+RF", "RandomUnderSampler+RF",
             "ADASYN+RF", "RandomOverSampler+LGBM", "SMOTE+LGBM", "RandomUnderSampler+LGBM",
             "ADASYN+LGBM", "RandomOverSampler+XGB", "SMOTE+XGB", "RandomUnderSampler+XGB",
             "ADASYN+XGB", "AutoBalanceBoost"]
        ∧ candidate_labels.length = 17
        ∧ (if (⟨1, 0, "f1_macro"⟩ : IlcConfig).eval_metric = "log_loss"
            then firstBestBy leAsc (ret.score_dict.map (fun e => (e.1, listMean e.2)))
            else firstBestBy leDesc (ret.score_dict.map (fun e => (e.1, listMean e.2))))
            = some (ret.option_label, ret.score)
        ∧ (∀ q ∈ ret.score_dict.map (fun e => (e.1, listMean e.2)),
            if (⟨1, 0, "f1_macro"⟩ : IlcConfig).eval_metric = "log_loss"
            then ret.score ≤ q.2 else q.2 ≤ ret.score)) := by
  obtain ⟨ret, hret⟩ := choose_ok_exists
  exact ⟨ret, hret, driver_ranking_winner ⟨1, 0, "f1_macro"⟩ envOk ret hret⟩

/-- The leader of `calc_leaderboard`: the first key of the mean-score
dictionary after the metric-direction stable sort
(`leader = list(mean_dict.keys())[0]`, `tools_ilc.py` line 606). -/
def leaderOf (scoresD : List (String × List ℚ)) (metric : String) : String :=
  match (if metric = "log_loss" then pySortAsc (scoresD.map (fun p => (p.1, listMean p.2)))
         else pySortDesc (scoresD.map (fun p => (p.1, listMean p.2)))).head? with
  | some p => p.1
  | none => ""

/-- The four sub-mappings returned by `calc_leaderboard`. -/
structure Leaderboard where
  mean_score : List (String × ℚ)
  mean_rank : List (String × ℚ)
  first_place_share : List (String × ℚ)
  avg_diff : List (String × ℚ)
deriving Repr

/-- Embedding of `calc_leaderboard(self)` (`tools_ilc.py` lines 581-628)
over the stored score series `self.evaluated_models_scores_` (an
insertion-ordered dict, modelled as an association list), `self.split_num`
and `self.eval_metric`; scipy's dense `rankdata` is the oracle
`rankdataDense`.  The per-fold rank rows negate scores unless the metric
is log-loss; the "Average difference with the leader" map is built over
every non-leader candidate from the fold-wise relative differences
`(candidate - leader) / leader * 100` and sorted descending by value. -/
def calc_leaderboard (scoresD : List (String × List ℚ)) (split_num : ℕ) (metric : String)
    (rankdataDense : List ℚ → List ℕ) : Leaderboard :=
  let mean_dict0 := scoresD.map (fun p => (p.1, listMean p.2))
  let sub_rank_list := (List.range split_num).map (fun i =>
    scoresD.map (fun p => if metric = "log_loss" then p.2.getD i 0 else -(p.2.getD i 0)))
  let mean_dict := if metric = "log_loss" then pySortAsc mean_dict0 else pySortDesc mean_dict0
  let leader := leaderOf scoresD metric
  let model_rank := sub_rank_list.map rankdataDense
  let rank_dict0 := scoresD.enum.map (fun q =>
    (q.2.1, listMean (model_rank.map (fun row => ((row.getD q.1 0 : ℚ))))))
  let leader_share0 := scoresD.enum.map (fun q =>
    (q.2.1, ((model_rank.filter (fun row => row.getD q.1 0 == 1)).length : ℚ)
      / (model_rank.length : ℚ) * 100))
  let diff_dict0 := (scoresD.filter (fun p => !(p.1 == leader))).map (fun p =>
    (p.1, listMean (List.zipWith (fun a b => (a - b) / b * 100) p.2 (dictGet scoresD leader))))
  ⟨mean_dict, pySortAsc rank_dict0, pySortDesc leader_share0, pySortDesc diff_dict0⟩

/-- On an association list with pairwise distinct keys, dict access
returns the value of the unique entry. -/
theorem dictGet_eq_of_mem (d : List (String × List ℚ))
    (hnd : (d.map Prod.fst).Nodup) (k : String) (w : List ℚ) (h : (k, w) ∈ d) :
    dictGet d k = w := by
  induction d with
  | nil => cases h
  | cons a t ih =>
      simp only [List.map_cons, List.nodup_cons] at hnd
      by_cases h1 : a.1 = k
      · rcases List.mem_cons.mp h with heq | hmem
        · unfold dictGet
          rw [List.find?_cons_of_pos _ (by simp [h1])]
          rw [← heq]
        · exfalso
          apply hnd.1
          rw [h1]
          exact List.mem_map.mpr ⟨(k, w), hmem, rfl⟩
      · rcases List.mem_cons.mp h with heq | hmem
        · exact absurd (congrArg Prod.fst heq).symm h1
        · unfold dictGet
          rw [List.find?_cons_of_neg _ (by simp [h1])]
          exact ih hnd.2 hmem

/-- C8: in the leaderboard's "Average difference with the leader"
mapping, the entries are exactly the non-leader candidates, each carrying
the mean over folds of `(candidate_score - leader_score) / leader_score *
100` computed fold-wise from the stored score series (the leader itself is
excluded).  The hypotheses state the domain on which the exact-arithmetic
embedding is faithful to numpy: a nonempty model dict with distinct keys,
all series of the stored fold count, and nonzero leader fold scores (a
zero leader score would make numpy produce non-finite values). -/
theorem leaderboard_diff_mapping (scoresD : List (String × List ℚ)) (n : ℕ) (metric : String)
    (rk : List ℚ → List ℕ)
    (hnd : (scoresD.map Prod.fst).Nodup)
    (hne : scoresD ≠ [])
    (hlen : ∀ p ∈ scoresD, p.2.length = n)
    (hpos : 0 < n)
    (hnz : ∀ q ∈ dictGet scoresD (leaderOf scoresD metric), q ≠ 0) :
    ∀ el v, (el, v) ∈ (calc_leaderboard scoresD n metric rk).avg_diff
      ↔ (el ∈ scoresD.map Prod.fst ∧ el ≠ leaderOf scoresD metric
          ∧ v = listMean (List.zipWith (fun a b => (a - b) / b * 100)
              (dictGet scoresD el) (dictGet scoresD (leaderOf scoresD metric)))) := by
  intro el v
  unfold calc_leaderboard
  simp only []
  rw [show pySortDesc ((scoresD.filter (fun p => !(p.1 == leaderOf scoresD metric))).map
      (fun p => (p.1, listMean (List.zipWith (fun a b => (a - b) / b * 100) p.2
        (dictGet scoresD (leaderOf scoresD metric))))))
    = pySortedBy leDesc ((scoresD.filter (fun p => !(p.1 == leaderOf scoresD metric))).map
      (fun p => (p.1, listMean (List.zipWith (fun a b => (a - b) / b * 100) p.2
        (dictGet scoresD (leaderOf scoresD metric)))))) from rfl]
  rw [mem_pySortedBy]
  simp only [List.mem_map, List.mem_filter]
  constructor
  · rintro ⟨p, ⟨hpmem, hppred⟩, hfeq⟩
    have hp1 : p.1 = el := congrArg Prod.fst hfeq
    have hp2 : v = listMean (List.zipWith (fun a b => (a - b) / b * 100) p.2
        (dictGet scoresD (leaderOf scoresD metric))) := (congrArg Prod.snd hfeq).symm
    have hpleader : p.1 ≠ leaderOf scoresD metric := by
      simpa using hppred
    have hget : dictGet scoresD el = p.2 := by
      apply dictGet_eq_of_mem scoresD hnd el p.2
      rw [← hp1]
      exact hpmem
    refine ⟨⟨p, hpmem, hp1⟩, hp1 ▸ hpleader, ?_⟩
    rw [hget]
    exact hp2
  · rintro ⟨hel, hne2, hv⟩
    obtain ⟨p, hpmem, hp1⟩ := hel
    have hget : dictGet scoresD el = p.2 := by
      apply dictGet_eq_of_mem scoresD hnd el p.2
      rw [← hp1]
      exact hpmem
    refine ⟨p, ⟨hpmem, by simp [hp1, hne2]⟩, ?_⟩
    rw [hp1]
    rw [hget] at hv
    rw [hv]

/-- Stored score series used by the C8 witness. -/
def scoresW : List (String × List ℚ) := [("a", [1, 2]), ("b", [2, 4])]

/-- C8 witness: the leaderboard difference theorem instantiated at a
concrete two-candidate, two-fold score dictionary and at the non-leader
entry `("a", -50)`. -/
theorem leaderboard_diff_mapping_witness :
    ("a", (-50 : ℚ)) ∈ (calc_leaderboard scoresW 2 "f1_macro"
        (fun l => List.replicate l.length 1)).avg_diff
      ↔ ("a" ∈ scoresW.map Prod.fst ∧ "a" ≠ leaderOf scoresW "f1_macro"
          ∧ (-50 : ℚ) = listMean (List.zipWith (fun a b => (a - b) / b * 100)
              (dictGet scoresW "a") (dictGet scoresW (leaderOf scoresW "f1_macro")))) :=
  leaderboard_diff_mapping scoresW 2 "f1_macro" (fun l => List.replicate l.length 1)
    (by simp [scoresW]) (by simp [scoresW]) (by simp [scoresW]) (by norm_num)
    (by
      intro q hq
      have hl : leaderOf scoresW "f1_macro" = "b" := by
        norm_num [leaderOf, scoresW, pySortDesc, pySortedBy, insertStable, leDesc, listMean]
        simp
      rw [hl] at hq
      simp [dictGet, scoresW] at hq
      rcases hq with rfl | rfl
      · norm_num
      · norm_num)
    "a" (-50)
